import Mathlib

/-!
# ng::vector : a shallow embedding of `src/src/vector.h` and `src/src/vector_realization.h`

The container is a triple `data_ / size_ / capacity_` (plus its allocator) that
points into heap storage obtained from `std::allocator_traits`.  The embedding
keeps that shape:

* `Mem T` is the heap: a list of blocks, each a list of cells that are either
  raw (`none`) or hold a constructed element (`some x`), with a flag recording
  whether (and with which count) the block was deallocated.  `Mem` also plays
  the role of a counting / failure-injecting allocator: it counts successful
  constructions and destructions and carries two budgets that say how many
  further allocations / element constructions succeed before they start to
  throw.
* `Ptr` is a `T*`: a block number and an offset (`nullptr` has no block).
* `Vec` is the object representation of `ng::vector<T, A>`.
* `M σ α` is a computation over a state `σ` that ends normally, ends with a
  C++ exception in flight (the state reached so far is kept), or has
  undefined behaviour (`ub`): access outside a block, to raw or released
  storage, a deallocation with a count other than the one the block was
  allocated with, or a relational comparison of pointers into different blocks.

`size_type` is modelled by `Nat`: a real allocation of `n` elements only
succeeds for `n ≤ max_size() < 2^63`, so `capacity_ * 2` and `capacity_ + 1`
never wrap on a vector that exists.  Whether an allocation or an element
construction succeeds is decided by the budgets in `Mem`; statements about
successful runs assume unlimited budgets (`NoFail`).

Two invariants describe a vector that holds the elements `xs`.  `Holds` asks
that the block has room for `capacity_` elements; `Owns` asks in addition that
`capacity_` is exactly the number of slots of the block, which is what every
release of the block (`deallocate_memory(size_, capacity_, data_)`) relies on.
The constructors establish `Owns`; `reserve`, `erase`, `pop_back`, `clear`,
`resize` and copy assignment keep it, and so does `push_back` unless the
capacity is 0 and `data_` is not null; `insert` before `end()` does not keep it
(it adopts a block of `capacity_ + 1` slots and keeps `capacity_`).
-/

namespace ng

/-! ## Outcomes and the state monad -/

/-- Exceptions raised by the container (`std::out_of_range`), by the allocator
(`std::bad_alloc`) and by an element constructor. -/
inductive Exn where
  | out_of_range
  | bad_alloc
  | ctor_failure
  deriving DecidableEq

/-- Outcome of running a piece of code from a state of type `σ`. -/
inductive Res (σ α : Type) where
  | ok (a : α) (s : σ)
  | throw (e : Exn) (s : σ)
  | ub
  deriving DecidableEq

/-- Computations over a state `σ`. -/
def M (σ α : Type) : Type := σ → Res σ α

/-- Sequencing: an exception or undefined behaviour skips the rest. -/
def M.bind {σ α β : Type} (x : M σ α) (f : α → M σ β) : M σ β := fun s =>
  match x s with
  | .ok a s1 => f a s1
  | .throw e s1 => .throw e s1
  | .ub => .ub

instance {σ : Type} : Monad (M σ) where
  pure a := fun s => .ok a s
  bind := M.bind

/-- The statement `throw e;`. -/
def raise {σ α : Type} (e : Exn) : M σ α := fun s => .throw e s

/-- Undefined behaviour. -/
def undefined {σ α : Type} : M σ α := fun _ => .ub

/-- Read the whole state. -/
def getS {σ : Type} : M σ σ := fun s => .ok s s

/-- Update the state. -/
def modS {σ : Type} (f : σ → σ) : M σ Unit := fun s => .ok () (f s)

/-- Scope of a local object: `dtor` runs when `body` is left, normally or by an
exception (stack unwinding); an exception escaping a destructor during
unwinding has no defined continuation here. -/
def unwinding {σ α : Type} (dtor : M σ Unit) (body : M σ α) : M σ α := fun s =>
  match body s with
  | .ok a s1 =>
    match dtor s1 with
    | .ok _ s2 => .ok a s2
    | .throw e s2 => .throw e s2
    | .ub => .ub
  | .throw e s1 =>
    match dtor s1 with
    | .ok _ s2 => .throw e s2
    | .throw _ _ => .ub
    | .ub => .ub
  | .ub => .ub

/-! ## Pointers and the heap -/

/-- A `T*`: the block it points into (none for a null pointer) and an offset
counted in elements. -/
structure Ptr where
  base : Option Nat
  off : Nat
  deriving DecidableEq

/-- The null pointer. -/
def nullptr : Ptr := ⟨none, 0⟩

/-- Pointer arithmetic `p + k`. -/
def Ptr.add (p : Ptr) (k : Nat) : Ptr := ⟨p.base, p.off + k⟩

/-- Pointer arithmetic `p - k`; leaving the block at its front is undefined. -/
def Ptr.sub {σ : Type} (p : Ptr) (k : Nat) : M σ Ptr :=
  if k ≤ p.off then pure ⟨p.base, p.off - k⟩ else undefined

/-- The comparison `p >= q`, defined for pointers into the same block. -/
def Ptr.ge {σ : Type} (p q : Ptr) : M σ Bool :=
  if p.base = q.base then pure (decide (q.off ≤ p.off)) else undefined

/-- The comparison `p > q`, defined for pointers into the same block. -/
def Ptr.gt {σ : Type} (p q : Ptr) : M σ Bool :=
  if p.base = q.base then pure (decide (q.off < p.off)) else undefined

/-- One block of storage obtained from `traits::allocate`. -/
structure Block (T : Type) where
  /-- The slots: `none` is raw storage, `some x` a constructed element. -/
  cells : List (Option T)
  /-- Set to `some n` by `traits::deallocate(a, p, n)`. -/
  freed : Option Nat
  deriving DecidableEq

/-- The heap together with the allocator's counters and failure budgets. -/
structure Mem (T : Type) where
  blocks : List (Block T)
  /-- Number of further allocations that succeed (`none`: all of them). -/
  allocBudget : Option Nat
  /-- Number of further element constructions that succeed (`none`: all). -/
  ctorBudget : Option Nat
  /-- Successful `traits::construct` calls so far. -/
  constructs : Nat
  /-- `traits::destroy` calls so far. -/
  destroys : Nat
  deriving DecidableEq

/-- Take one unit from a budget; `none` when it is exhausted. -/
def spend : Option Nat → Option (Option Nat)
  | none => some none
  | some 0 => none
  | some (n + 1) => some (some n)

/-- The block a pointer refers to, provided it has not been released. -/
def liveBlock {T : Type} (bs : List (Block T)) (p : Ptr) : Option (Nat × Block T) :=
  match p.base with
  | none => none
  | some b =>
    match bs[b]? with
    | none => none
    | some blk =>
      match blk.freed with
      | none => some (b, blk)
      | some _ => none

/-- The element a pointer designates: `none` when the pointer is null, leaves
its block, or the slot is raw or released. -/
def peek {T : Type} (bs : List (Block T)) (p : Ptr) : Option T :=
  match liveBlock bs p with
  | none => none
  | some (_, blk) => (blk.cells[p.off]?).join

/-- The call `traits::allocate(a, n)`: a fresh block of `n` raw slots, or
`std::bad_alloc`. -/
def allocate {T : Type} (n : Nat) : M (Mem T) Ptr := fun m =>
  match spend m.allocBudget with
  | none => .throw .bad_alloc m
  | some b =>
    .ok ⟨some m.blocks.length, 0⟩
      { m with blocks := m.blocks ++ [⟨List.replicate n none, none⟩], allocBudget := b }

/-- The call `traits::deallocate(a, p, n)`: `p` has to be the start of a block
in use and `n` the count that block was allocated with (the precondition of
`std::allocator<T>::deallocate`); any other call is undefined. -/
def deallocate {T : Type} (p : Ptr) (n : Nat) : M (Mem T) Unit := fun m =>
  match liveBlock m.blocks p with
  | none => .ub
  | some (b, blk) =>
    if p.off = 0 ∧ n = blk.cells.length then
      .ok () { m with blocks := m.blocks.set b { blk with freed := some n } }
    else .ub

/-- The call `traits::construct(a, p, x)`: copy-constructs `x` in the slot `p`,
or the element constructor throws. -/
def construct {T : Type} (p : Ptr) (x : T) : M (Mem T) Unit := fun m =>
  match liveBlock m.blocks p with
  | none => .ub
  | some (b, blk) =>
    if p.off < blk.cells.length then
      match spend m.ctorBudget with
      | none => .throw .ctor_failure m
      | some c =>
        .ok () { m with
          blocks := m.blocks.set b { blk with cells := blk.cells.set p.off (some x) },
          ctorBudget := c,
          constructs := m.constructs + 1 }
    else .ub

/-- The call `traits::destroy(a, p)`: ends the lifetime of the element at `p`. -/
def destroy {T : Type} (p : Ptr) : M (Mem T) Unit := fun m =>
  match liveBlock m.blocks p with
  | none => .ub
  | some (b, blk) =>
    match blk.cells[p.off]? with
    | some (some _) =>
      .ok () { m with
        blocks := m.blocks.set b { blk with cells := blk.cells.set p.off none },
        destroys := m.destroys + 1 }
    | _ => .ub

/-- Reading `*p`. -/
def read {T : Type} (p : Ptr) : M (Mem T) T := fun m =>
  match liveBlock m.blocks p with
  | none => .ub
  | some (_, blk) =>
    match blk.cells[p.off]? with
    | some (some x) => .ok x m
    | _ => .ub

/-! ## The vector object -/

/-- An allocator object; `A()` is `⟨0⟩`.  All allocators draw from the one heap. -/
structure Allocator where
  id : Nat
  deriving DecidableEq

instance : Inhabited Allocator := ⟨⟨0⟩⟩

/-- The data members of `ng::vector<T, A>`. -/
structure Vec where
  data_ : Ptr
  size_ : Nat
  capacity_ : Nat
  allocator_ : Allocator
  deriving DecidableEq

/-- State of a member function: the object `*this` and the heap. -/
structure St (T : Type) where
  self : Vec
  mem : Mem T
  deriving DecidableEq

/-- State of a member function that takes a second vector by reference. -/
structure St2 (T : Type) where
  self : Vec
  other : Vec
  mem : Mem T
  deriving DecidableEq

/-- Run heap code inside a member function. -/
def onMem {T α : Type} (x : M (Mem T) α) : M (St T) α := fun s =>
  match x s.mem with
  | .ok a m => .ok a { s with mem := m }
  | .throw e m => .throw e { s with mem := m }
  | .ub => .ub

/-- Run heap code inside a member function with two vectors in scope. -/
def onMem2 {T α : Type} (x : M (Mem T) α) : M (St2 T) α := fun s =>
  match x s.mem with
  | .ok a m => .ok a { s with mem := m }
  | .throw e m => .throw e { s with mem := m }
  | .ub => .ub

/-- The member `begin()`. -/
def begin_ (v : Vec) : Ptr := v.data_

/-- The member `end()`. -/
def end_ (v : Vec) : Ptr := v.data_.add v.size_

/-- The member `size()`. -/
def size (v : Vec) : Nat := v.size_

/-- The member `capacity()`. -/
def capacity (v : Vec) : Nat := v.capacity_

/-- Read `*this`. -/
def getSelf {T : Type} : M (St T) Vec := fun s => .ok s.self s

/-- The assignment `data_ = p;`. -/
def setData {T : Type} (p : Ptr) : M (St T) Unit :=
  modS fun s => { s with self := { s.self with data_ := p } }

/-- The assignment `size_ = n;`. -/
def setSize {T : Type} (n : Nat) : M (St T) Unit :=
  modS fun s => { s with self := { s.self with size_ := n } }

/-- The assignment `capacity_ = n;`. -/
def setCapacity {T : Type} (n : Nat) : M (St T) Unit :=
  modS fun s => { s with self := { s.self with capacity_ := n } }

/-! ## Private helpers of the container -/

/-- The try block of `allocate_memory(size, capacity, value, a)`:
`for (p = newarr; p != end; ++p) traits::construct(a, p, value);`
with `n` iterations left and `p` the offset reached.  The result is the offset
at which control leaves the block and the exception in flight, if any. -/
def fill_try {T : Type} (newarr : Ptr) (value : T) : Nat → Nat → M (Mem T) (Nat × Option Exn)
  | 0, p => pure (p, none)
  | n + 1, p => fun m =>
    match construct (newarr.add p) value m with
    | .ok _ m1 => fill_try newarr value n (p + 1) m1
    | .throw e m1 => .ok (p, some e) m1
    | .ub => .ub

/-- The try block of `allocate_memory(size, capacity, arr, a)`:
`for (p = newarr; p != end; ++p) traits::construct(a, p, arr[i++]);`. -/
def copy_try {T : Type} (newarr arr : Ptr) : Nat → Nat → M (Mem T) (Nat × Option Exn)
  | 0, p => pure (p, none)
  | n + 1, p => fun m =>
    match (read (arr.add p) >>= fun x => construct (newarr.add p) x) m with
    | .ok _ m1 => copy_try newarr arr n (p + 1) m1
    | .throw e m1 => .ok (p, some e) m1
    | .ub => .ub

/-- The loop `for (q = arr + i; q != arr + i + n; ++q) traits::destroy(a, q);`. -/
def destroy_loop {T : Type} (arr : Ptr) : Nat → Nat → M (Mem T) Unit
  | 0, _ => pure ()
  | n + 1, i => do
    destroy (arr.add i)
    destroy_loop arr n (i + 1)

/-- The overload `allocate_memory(size, capacity, const T& value, A& a)`. -/
def allocate_memory {T : Type} (size capacity : Nat) (value : T) : M (Mem T) Ptr := do
  let newarr ← allocate capacity
  let r ← fill_try newarr value size 0
  match r.2 with
  | none => pure newarr
  | some e => do
    destroy_loop newarr r.1 0
    deallocate newarr capacity
    raise e

/-- The overload `allocate_memory(size, capacity, const_pointer arr, A& a)`. -/
def allocate_memory_arr {T : Type} (size capacity : Nat) (arr : Ptr) : M (Mem T) Ptr := do
  let newarr ← allocate capacity
  let r ← copy_try newarr arr size 0
  match r.2 with
  | none => pure newarr
  | some e => do
    destroy_loop newarr r.1 0
    deallocate newarr capacity
    raise e

/-- The helper `deallocate_memory(size, capacity, arr, a)`. -/
def deallocate_memory {T : Type} (size capacity : Nat) (arr : Ptr) : M (Mem T) Unit :=
  if arr ≠ nullptr then do
    destroy_loop arr size 0
    deallocate arr capacity
  else pure ()

/-- The helper `swap_(to, from)`, called with `to = *this` and `from = other`. -/
def swap_ {T : Type} : M (St2 T) Unit :=
  modS fun s =>
    { s with
      self := { s.self with size_ := s.other.size_, capacity_ := s.other.capacity_,
                            data_ := s.other.data_ },
      other := { s.other with size_ := s.self.size_, capacity_ := s.self.capacity_,
                              data_ := s.self.data_ } }

/-! ## Constructors and destructor -/

/-- The default constructor `vector()`. -/
def vector_default : Vec :=
  { data_ := nullptr, size_ := 0, capacity_ := 0, allocator_ := default }

/-- The constructor `vector(size, value, allocator)`. -/
def vector_fill {T : Type} (size : Nat) (value : T) (allocator : Allocator) :
    M (Mem T) Vec := do
  let data ← allocate_memory size size value
  pure { data_ := data, size_ := size, capacity_ := size, allocator_ := allocator }

/-- The copy constructor `vector(const vector& other)`; `allocator_` is
default-initialised. -/
def vector_copy {T : Type} (other : Vec) : M (Mem T) Vec := do
  let data ← allocate_memory_arr other.size_ other.capacity_ other.data_
  pure { data_ := data, size_ := other.size_, capacity_ := other.capacity_,
         allocator_ := default }

/-- The move constructor `vector(vector&& other)`: the state holds `other`, the
result is the object constructed. -/
def vector_move {T : Type} : M (St T) Vec := do
  let other ← getSelf
  let made : Vec :=
    { size_ := other.size_, capacity_ := other.capacity_, data_ := other.data_,
      allocator_ := other.allocator_ }
  setSize 0
  setCapacity 0
  setData nullptr
  modS fun s => { s with self := { s.self with allocator_ := default } }
  pure made

/-- The destructor `~vector()`. -/
def vector_dtor {T : Type} (v : Vec) : M (Mem T) Unit :=
  deallocate_memory v.size_ v.capacity_ v.data_

/-! ## Public members -/

/-- The bounds-checked access `at(pos)`; the result is the reference
`data_[pos]`. -/
def at_ {T : Type} (pos : Nat) : M (St T) Ptr := do
  let v ← getSelf
  if pos ≥ size v then raise .out_of_range
  else pure (v.data_.add pos)

/-- The member `reserve(size)`. -/
def reserve {T : Type} (size : Nat) : M (St T) Unit := do
  let v ← getSelf
  if size < v.capacity_ then pure ()
  else do
    let tmp_copy ← onMem (vector_copy v)
    unwinding (onMem (vector_dtor tmp_copy)) do
      onMem (deallocate_memory v.size_ v.capacity_ v.data_)
      let data ← onMem (allocate_memory_arr v.size_ size tmp_copy.data_)
      setData data
      setCapacity size

/-- The member `push_back(const_reference value)`. -/
def push_back {T : Type} (value : T) : M (St T) Unit := do
  let v ← getSelf
  (if v.size_ = v.capacity_ then do
    (if v.capacity_ = 0 then setCapacity 1 else pure ())
    let v1 ← getSelf
    reserve (v1.capacity_ * 2)
  else pure ())
  let v2 ← getSelf
  onMem (construct (end_ v2) value)
  setSize (v2.size_ + 1)

/-- The loop of `insert`, with `n` iterations left, `p = data + j`, write index
`i` and the current value of `position`; the result is the final `position`. -/
def insert_loop {T : Type} (data buffer pos : Ptr) (value : T) :
    Nat → Nat → Nat → Ptr → M (Mem T) Ptr
  | 0, _, _, position => pure position
  | n + 1, j, i, position =>
    if data.add j = pos then do
      construct (buffer.add i) value
      let x ← read (data.add j)
      construct (buffer.add (i + 1)) x
      insert_loop data buffer pos value n (j + 1) (i + 2) (buffer.add i)
    else do
      let x ← read (data.add j)
      construct (buffer.add i) x
      insert_loop data buffer pos value n (j + 1) (i + 1) position

/-- The member `insert(pos, value)`.  The reference `data_[0]` handed to
`allocate_memory` is read before the call: the old block is not written to
while the new one is filled. -/
def insert {T : Type} (pos : Ptr) (value : T) : M (St T) Ptr := do
  let v ← getSelf
  if pos = end_ v then do
    push_back value
    pure pos
  else do
    let past ← Ptr.gt pos (end_ v)
    if past then pure nullptr
    else do
      let front ← onMem (read (v.data_.add 0))
      let buffer ← onMem (allocate_memory v.size_ (v.capacity_ + 1) front)
      let position ← onMem (insert_loop v.data_ buffer pos value v.size_ 0 0 pos)
      onMem (deallocate_memory v.size_ v.capacity_ v.data_)
      setData buffer
      setSize (v.size_ + 1)
      let v1 ← getSelf
      (if v1.size_ = v1.capacity_ then reserve (v1.capacity_ * 2) else pure ())
      pure position

/-- The loop of `erase`, with `n` iterations left, `p = data + j` and write
index `i`. -/
def erase_loop {T : Type} (data buffer pos : Ptr) : Nat → Nat → Nat → M (Mem T) Unit
  | 0, _, _ => pure ()
  | n + 1, j, i =>
    if data.add j ≠ pos then do
      let x ← read (data.add j)
      construct (buffer.add i) x
      erase_loop data buffer pos n (j + 1) (i + 1)
    else erase_loop data buffer pos n (j + 1) i

/-- The member `erase(pos)`. -/
def erase {T : Type} (pos : Ptr) : M (St T) Unit := do
  let v ← getSelf
  let out ← Ptr.ge pos (end_ v)
  if out then raise .out_of_range
  else do
    let front ← onMem (read (v.data_.add 0))
    let buffer ← onMem (allocate_memory (v.size_ - 1) v.capacity_ front)
    onMem (erase_loop v.data_ buffer pos v.size_ 0 0)
    onMem (deallocate_memory v.size_ v.capacity_ v.data_)
    setData buffer
    setSize (v.size_ - 1)

/-- The move assignment `operator=(vector&& other)`; `same` is the test
`this == &other`. -/
def assign_move {T : Type} (same : Bool) : M (St2 T) Unit :=
  if same then pure ()
  else do
    let s ← getS
    onMem2 (deallocate_memory s.self.size_ s.self.capacity_ s.self.data_)
    swap_
    modS fun s => { s with self := { s.self with allocator_ := s.other.allocator_ } }

/-- The overload `allocate_memory(size, capacity, const T& value, a)` called
with a reference that may designate no object (`none`): the reference is read
only inside the loop, which then has undefined behaviour; with `size = 0` the
loop body never runs and the call only allocates. -/
def allocate_memory_ref {T : Type} (size capacity : Nat) (value : Option T) : M (Mem T) Ptr :=
  match value with
  | some x => allocate_memory size capacity x
  | none => if size = 0 then allocate capacity else undefined

/-- The try block of the initializer-list constructor:
`for (p = data_; p != end; ++p) traits::construct(allocator_, p, *(items.begin() + i++));`
over the items still to be copied, with `p` the offset reached.  The result is
the offset at which control leaves the block and the exception in flight. -/
def init_try {T : Type} (data : Ptr) : List T → Nat → M (Mem T) (Nat × Option Exn)
  | [], p => pure (p, none)
  | x :: rest, p => fun m =>
    match construct (data.add p) x m with
    | .ok _ m1 => init_try data rest (p + 1) m1
    | .throw e m1 => .ok (p, some e) m1
    | .ub => .ub

/-- The constructor `vector(std::initializer_list<T> const& items, const A& a)`.
The catch block destroys, deallocates and does not rethrow, so the constructor
then returns normally. -/
def vector_init {T : Type} (items : List T) (a : Allocator) : M (Mem T) Vec := do
  let size := items.length
  let data ← allocate_memory_ref size size items.head?
  let r ← init_try data items 0
  match r.2 with
  | none => pure { data_ := data, size_ := size, capacity_ := size, allocator_ := a }
  | some _ => do
    destroy_loop data r.1 0
    deallocate data size
    pure { data_ := data, size_ := size, capacity_ := size, allocator_ := a }

/-- The member `shrink_to_fit()`. -/
def shrink_to_fit {T : Type} : M (St T) Unit := do
  let v ← getSelf
  if v.size_ = v.capacity_ then pure ()
  else do
    let buffer := v.data_
    onMem (deallocate_memory v.size_ v.capacity_ v.data_)
    let data ← onMem (allocate_memory_arr v.size_ v.size_ buffer)
    setData data
    setCapacity v.size_

/-- The member `clear()`. -/
def clear {T : Type} : M (St T) Unit := do
  let v ← getSelf
  if v.capacity_ ≠ 0 then do
    onMem (destroy_loop v.data_ v.size_ 0)
    setSize 0
  else pure ()

/-- The member `pop_back()`; on an empty vector `end() - 1` already leaves the
block, so the wrap-around of `size_--` is never observed. -/
def pop_back {T : Type} : M (St T) Unit := do
  let v ← getSelf
  let p ← Ptr.sub (end_ v) 1
  onMem (destroy p)
  setSize (v.size_ - 1)

/-- The loop `while (size_ != count) pop_back();` of `resize`, run with at most
`fuel` iterations; it is entered with `size_ > count` and each iteration
lowers `size_` by one, so `size_ - count` iterations end it.  Running out of
fuel with the test still true is not a run of the loop (`undefined`). -/
def pop_while {T : Type} (count : Nat) : Nat → M (St T) Unit
  | 0 => do
    let v ← getSelf
    if v.size_ ≠ count then undefined else pure ()
  | fuel + 1 => do
    let v ← getSelf
    if v.size_ ≠ count then do
      pop_back
      pop_while count fuel
    else pure ()

/-- The loop `while (size_ < count) { traits::construct(allocator_, data_ + size_, value); size_++; }`
of `resize`, run with at most `fuel` iterations; `count - size_` iterations
end it. -/
def grow_while {T : Type} (count : Nat) (value : T) : Nat → M (St T) Unit
  | 0 => do
    let v ← getSelf
    if v.size_ < count then undefined else pure ()
  | fuel + 1 => do
    let v ← getSelf
    if v.size_ < count then do
      onMem (construct (v.data_.add v.size_) value)
      setSize (v.size_ + 1)
      grow_while count value fuel
    else pure ()

/-- The member `resize(count, value)`. -/
def resize {T : Type} (count : Nat) (value : T) : M (St T) Unit := do
  let v ← getSelf
  (if count > v.capacity_ then reserve count else pure ())
  let v1 ← getSelf
  (if v1.size_ > count then pop_while count (v1.size_ - count) else pure ())
  let v2 ← getSelf
  grow_while count value (count - v2.size_)

/-! ## Observing a vector -/

/-- A heap in which nothing has been allocated; `ab` and `cb` are the budgets. -/
def Mem.fresh (T : Type) (ab cb : Option Nat) : Mem T :=
  { blocks := [], allocBudget := ab, ctorBudget := cb, constructs := 0, destroys := 0 }

/-- The elements `data_[0], ..., data_[size_ - 1]` as the heap holds them:
`none` for a slot that is outside the block, raw, or in a released block. -/
def contents {T : Type} (m : Mem T) (v : Vec) : List (Option T) :=
  (List.range v.size_).map fun i => peek m.blocks (v.data_.add i)

/-- Number of slots of the block `p` points into (0 when there is none). -/
def slots {T : Type} (bs : List (Block T)) (p : Ptr) : Nat :=
  match liveBlock bs p with
  | none => 0
  | some (_, blk) => blk.cells.length

/-- The vector stores exactly the elements `xs`: `size_` is their number and
`data_` is null (no elements) or the start of a block that has not been
released and holds `xs` in its first `size_` slots. -/
def Stored {T : Type} (m : Mem T) (v : Vec) (xs : List T) : Prop :=
  v.size_ = xs.length ∧ v.data_.off = 0 ∧
  match v.data_.base with
  | none => xs = []
  | some b =>
    match m.blocks[b]? with
    | none => False
    | some blk => blk.freed = none ∧ blk.cells.take v.size_ = xs.map some

/-- The representation invariant of a vector holding the elements `xs`: it
stores `xs`, `size_ ≤ capacity_`, and the block has room for `capacity_`
elements (a null `data_` goes with capacity 0). -/
def Holds {T : Type} (m : Mem T) (v : Vec) (xs : List T) : Prop :=
  Stored m v xs ∧ v.size_ ≤ v.capacity_ ∧ v.capacity_ ≤ slots m.blocks v.data_

/-- The data model of the container: the vector holds `xs` and `capacity_` is
exactly the number of slots of its block, the count the block was allocated
with and has to be released with (a null `data_` goes with capacity 0). -/
def Owns {T : Type} (m : Mem T) (v : Vec) (xs : List T) : Prop :=
  Holds m v xs ∧ v.capacity_ = slots m.blocks v.data_

/-- No allocation and no element construction fails. -/
def NoFail {T : Type} (m : Mem T) : Prop :=
  m.allocBudget = none ∧ m.ctorBudget = none

/-! ## Heaps described in closed form -/

/-- The elements `xs` can be read through `arr[0], ..., arr[xs.length - 1]`. -/
def Readable {T : Type} (bs : List (Block T)) (arr : Ptr) (xs : List T) : Prop :=
  ∀ i, i < xs.length → peek bs (arr.add i) = xs[i]?

/-- The heap after `reserve(n)` has moved the elements `xs` of a vector whose
storage is block `b`: the old block and the temporary copy are released, the
new block is the last one. -/
def reserved {T : Type} (bs : List (Block T)) (b : Option Nat) (xs : List T) (rest : List (Option T))
    (cap n c d : Nat) : Mem T :=
  { blocks :=
      (match b with
        | none => bs
        | some b => bs.set b ⟨List.replicate xs.length none ++ rest, some cap⟩) ++
      [⟨List.replicate xs.length none ++ List.replicate (cap - xs.length) none, some cap⟩] ++
      [⟨xs.map some ++ List.replicate (n - xs.length) none, none⟩],
    allocBudget := none,
    ctorBudget := none,
    constructs := c + xs.length + xs.length,
    destroys := d + (match b with | none => 0 | some _ => xs.length) + xs.length }

/-- A heap with one block that holds 1, 2, 3 and one raw slot. -/
def sample_mem : Mem Nat :=
  ⟨[⟨[some 1, some 2, some 3, none], none⟩], none, none, 3, 0⟩

/-- A vector of size 3 and capacity 4 whose storage is block 0. -/
def sample_vec : Vec := ⟨⟨some 0, 0⟩, 3, 4, default⟩

/-- Number of `traits::allocate` calls that returned a block. -/
def allocations {T : Type} (m : Mem T) : Nat := m.blocks.length

/-- Number of blocks handed back through `traits::deallocate`. -/
def deallocations {T : Type} (m : Mem T) : Nat :=
  (m.blocks.filter fun blk => blk.freed.isSome).length

/-- Calls `push_back` for each value in turn and records `capacity()` after
each call. -/
def push_trace {T : Type} : List T → M (St T) (List Nat)
  | [] => pure []
  | x :: xs => do
    push_back x
    let v ← getSelf
    let rest ← push_trace xs
    pure (capacity v :: rest)

/-- Number of entries of a capacity trace that differ from the capacity before
them, `cap` being the capacity before the first call. -/
def changes : Nat → List Nat → Nat
  | _, [] => 0
  | cap, c :: rest => (if c ≠ cap then 1 else 0) + changes c rest

/-- A public mutating operation on one vector; positions are given as indices
from `begin()`. -/
inductive Op (T : Type) where
  | push_back (x : T)
  | pop_back
  | insert (k : Nat) (x : T)
  | erase (k : Nat)
  | clear
  | reserve (n : Nat)
  | shrink_to_fit
  | resize (n : Nat) (x : T)

/-- Run one operation on `*this`. -/
def Op.run {T : Type} : Op T → M (St T) Unit
  | .push_back x => ng.push_back x
  | .pop_back => ng.pop_back
  | .insert k x => do
    let v ← getSelf
    let _ ← ng.insert ((begin_ v).add k) x
    pure ()
  | .erase k => do
    let v ← getSelf
    ng.erase ((begin_ v).add k)
  | .clear => ng.clear
  | .reserve n => ng.reserve n
  | .shrink_to_fit => ng.shrink_to_fit
  | .resize n x => ng.resize n x

/-- Run a sequence of operations on `*this`; an exception ends the sequence. -/
def run_ops {T : Type} : List (Op T) → M (St T) Unit
  | [] => pure ()
  | o :: os => do
    o.run
    run_ops os

/-- The outcome `r` is a normal or exceptional end in the state `s`. -/
def EndsIn {σ α : Type} (r : Res σ α) (s : σ) : Prop :=
  (∃ a, r = .ok a s) ∨ (∃ e, r = .throw e s)

/-- Invariant-style specification of a computation: from a state satisfying
`I`, a normal end satisfies `I` and returns a value satisfying `Q`, and an
exceptional end satisfies `I`. -/
def Preserves {σ α : Type} (I : σ → Prop) (x : M σ α) (Q : α → Prop) : Prop :=
  ∀ s, I s →
    match x s with
    | .ok a s1 => I s1 ∧ Q a
    | .throw _ s1 => I s1
    | .ub => True

/-- Block `b` of the heap is `tgt`. -/
def BlockIs {T : Type} (b : Nat) (tgt : Block T) (m : Mem T) : Prop :=
  m.blocks[b]? = some tgt

/-- Block `b` of the heap is `tgt` and `*this` does not point into it. -/
def Apart {T : Type} (b : Nat) (tgt : Block T) (s : St T) : Prop :=
  s.mem.blocks[b]? = some tgt ∧ s.self.data_.base ≠ some b

/-! ## Running computations -/

section Basics
variable {T σ α β : Type}

@[simp] theorem bind_run (x : M σ α) (f : α → M σ β) (s : σ) :
    (x >>= f) s =
      match x s with
      | .ok a s1 => f a s1
      | .throw e s1 => .throw e s1
      | .ub => .ub := rfl

@[simp] theorem pure_run (a : α) (s : σ) : (pure a : M σ α) s = .ok a s := rfl

@[simp] theorem add_off (b : Option Nat) (o k : Nat) : (Ptr.mk b o).add k = ⟨b, o + k⟩ := rfl

theorem liveBlock_live {bs : List (Block T)} {b : Nat} {cs : List (Option T)}
    (h : bs[b]? = some ⟨cs, none⟩) (o : Nat) :
    liveBlock bs ⟨some b, o⟩ = some (b, ⟨cs, none⟩) := by
  simp [liveBlock, h]

theorem peek_live {bs : List (Block T)} {b : Nat} {cs : List (Option T)}
    (h : bs[b]? = some ⟨cs, none⟩) (o : Nat) :
    peek bs ⟨some b, o⟩ = (cs[o]?).join := by
  simp [peek, liveBlock_live h]

theorem peek_append {bs : List (Block T)} {p : Ptr} {x : T} (l : List (Block T))
    (h : peek bs p = some x) : peek (bs ++ l) p = some x := by
  obtain ⟨b, o⟩ := p
  cases b with
  | none => simp [peek, liveBlock] at h
  | some b =>
    by_cases hb : b < bs.length
    · have e : (bs ++ l)[b]? = bs[b]? := List.getElem?_append_left hb
      simpa [peek, liveBlock, e] using h
    · have e : bs[b]? = none := by simp; omega
      simp [peek, liveBlock, e] at h

theorem read_of_peek {m : Mem T} {p : Ptr} {x : T} (h : peek m.blocks p = some x) :
    read p m = .ok x m := by
  unfold peek at h
  unfold read
  cases hl : liveBlock m.blocks p with
  | none => simp [hl] at h
  | some r =>
    obtain ⟨b, blk⟩ := r
    simp only [hl] at h ⊢
    cases hc : blk.cells[p.off]? with
    | none => simp [hc] at h
    | some c =>
      cases c with
      | none => simp [hc] at h
      | some y => simp [hc] at h; simp [h]

theorem construct_ok {bs : List (Block T)} {b o : Nat} {cs : List (Option T)}
    (h : bs[b]? = some ⟨cs, none⟩) (ho : o < cs.length) (x : T) (ab : Option Nat) (c d : Nat) :
    construct ⟨some b, o⟩ x ⟨bs, ab, none, c, d⟩ =
      .ok () ⟨bs.set b ⟨cs.set o (some x), none⟩, ab, none, c + 1, d⟩ := by
  simp [construct, liveBlock_live h, ho, spend]

theorem destroy_ok {bs : List (Block T)} {b o : Nat} {cs : List (Option T)} {x : T}
    (h : bs[b]? = some ⟨cs, none⟩) (ho : cs[o]? = some (some x)) (ab cb : Option Nat) (c d : Nat) :
    destroy ⟨some b, o⟩ ⟨bs, ab, cb, c, d⟩ =
      .ok () ⟨bs.set b ⟨cs.set o none, none⟩, ab, cb, c, d + 1⟩ := by
  simp [destroy, liveBlock_live h, ho]

theorem deallocate_ok (bs : List (Block T)) (b : Nat) (cs : List (Option T))
    (h : bs[b]? = some ⟨cs, none⟩) (n : Nat) (hn : n = cs.length) (ab cb : Option Nat)
    (c d : Nat) :
    deallocate ⟨some b, 0⟩ n ⟨bs, ab, cb, c, d⟩ =
      .ok () ⟨bs.set b ⟨cs, some n⟩, ab, cb, c, d⟩ := by
  simp [deallocate, liveBlock_live h, hn]

/-- Releasing a block with a count other than its number of slots is undefined. -/
theorem deallocate_mismatch (bs : List (Block T)) (b : Nat) (cs : List (Option T))
    (h : bs[b]? = some ⟨cs, none⟩) (n : Nat) (hn : n ≠ cs.length) (ab cb : Option Nat)
    (c d : Nat) :
    deallocate ⟨some b, 0⟩ n ⟨bs, ab, cb, c, d⟩ = .ub := by
  simp [deallocate, liveBlock_live h, hn]

theorem allocate_ok (bs : List (Block T)) (n : Nat) (cb : Option Nat) (c d : Nat) :
    allocate n ⟨bs, none, cb, c, d⟩ =
      .ok ⟨some bs.length, 0⟩ ⟨bs ++ [⟨List.replicate n none, none⟩], none, cb, c, d⟩ := rfl

theorem set_last (bs : List (Block T)) (x y : Block T) :
    (bs ++ [x]).set bs.length y = bs ++ [y] := by
  simp

theorem get_last (bs : List (Block T)) (x : Block T) :
    (bs ++ [x])[bs.length]? = some x := by
  simp

theorem set_mid (pre rest : List (Option T)) (r y : Option T) :
    (pre ++ r :: rest).set pre.length y = pre ++ y :: rest := by
  simp

end Basics

section Loops
variable {T : Type}

theorem copy_try_ok (B : List (Block T)) (arr : Ptr) (ab : Option Nat) (d : Nat) :
    ∀ (ws : List T) (p : Nat) (pre rest : List (Option T)) (c : Nat),
      pre.length = p → ws.length ≤ rest.length →
      (∀ i, i < ws.length → peek B (arr.add (p + i)) = ws[i]?) →
      copy_try ⟨some B.length, 0⟩ arr ws.length p ⟨B ++ [⟨pre ++ rest, none⟩], ab, none, c, d⟩ =
        .ok (p + ws.length, none)
          ⟨B ++ [⟨pre ++ ws.map some ++ rest.drop ws.length, none⟩], ab, none,
            c + ws.length, d⟩ := by
  intro ws
  induction ws with
  | nil => intro p pre rest c _ _ _; simp [copy_try]
  | cons w ws ih =>
    intro p pre rest c hp hlen hread
    cases rest with
    | nil => simp at hlen
    | cons r rest =>
      have h0 : peek B (arr.add p) = some w := by simpa using hread 0 (by simp)
      have hr := read_of_peek (m := ⟨B ++ [⟨pre ++ r :: rest, none⟩], ab, none, c, d⟩)
        (peek_append [⟨pre ++ r :: rest, none⟩] h0)
      have hc := construct_ok (get_last B ⟨pre ++ r :: rest, none⟩)
        (show p < (pre ++ r :: rest).length by simp; omega) w ab c d
      have hih := ih (p + 1) (pre ++ [some w]) rest (c + 1) (by simp [hp])
        (by simpa using hlen)
        (by
          intro i hi
          have := hread (i + 1) (by simpa using hi)
          simpa [Nat.add_assoc, Nat.add_comm 1 i] using this)
      simp only [List.length_cons, copy_try, bind_run, hr, add_off, Nat.zero_add, hc]
      rw [set_last, ← hp, set_mid]
      rw [hp]
      have e : pre ++ some w :: rest = (pre ++ [some w]) ++ rest := by simp
      rw [e, hih]
      simp [Nat.add_assoc, Nat.add_comm 1]

theorem fill_try_ok (B : List (Block T)) (value : T) (ab : Option Nat) (d : Nat) :
    ∀ (n p : Nat) (pre rest : List (Option T)) (c : Nat),
      pre.length = p → n ≤ rest.length →
      fill_try ⟨some B.length, 0⟩ value n p ⟨B ++ [⟨pre ++ rest, none⟩], ab, none, c, d⟩ =
        .ok (p + n, none)
          ⟨B ++ [⟨pre ++ List.replicate n (some value) ++ rest.drop n, none⟩], ab, none,
            c + n, d⟩ := by
  intro n
  induction n with
  | zero => intro p pre rest c _ _; simp [fill_try]
  | succ n ih =>
    intro p pre rest c hp hlen
    cases rest with
    | nil => simp at hlen
    | cons r rest =>
      have hc := construct_ok (get_last B ⟨pre ++ r :: rest, none⟩)
        (show p < (pre ++ r :: rest).length by simp; omega) value ab c d
      have hih := ih (p + 1) (pre ++ [some value]) rest (c + 1) (by simp [hp])
        (by simpa using hlen)
      simp only [fill_try, add_off, Nat.zero_add, hc]
      rw [set_last, ← hp, set_mid]
      rw [hp]
      have e : pre ++ some value :: rest = (pre ++ [some value]) ++ rest := by simp
      rw [e, hih]
      simp [Nat.add_assoc, Nat.add_comm 1, List.replicate_succ]

theorem set_same {α : Type} : ∀ (l : List α) (i : Nat) (x : α), l[i]? = some x → l.set i x = l
  | [], _, _, _ => rfl
  | _ :: _, 0, _, h => by simp at h; simp [h]
  | _ :: l, i + 1, x, h => by
    simp at h
    simp [set_same l i x h]

theorem lookup_lt {α : Type} {l : List α} {i : Nat} {x : α} (h : l[i]? = some x) :
    i < l.length := by
  by_contra hn
  have : l[i]? = none := by simp; omega
  simp [this] at h

theorem get_mid {α : Type} (pre rest : List α) (r : α) :
    (pre ++ r :: rest)[pre.length]? = some r := by
  rw [List.getElem?_append_right (Nat.le_refl _)]
  simp

theorem destroy_loop_ok (b : Nat) (ab cb : Option Nat) (c : Nat) :
    ∀ (ws : List T) (bs : List (Block T)) (pre rest : List (Option T)) (d : Nat),
      bs[b]? = some ⟨pre ++ ws.map some ++ rest, none⟩ →
      destroy_loop ⟨some b, 0⟩ ws.length pre.length ⟨bs, ab, cb, c, d⟩ =
        .ok () ⟨bs.set b ⟨pre ++ List.replicate ws.length none ++ rest, none⟩, ab, cb, c,
          d + ws.length⟩ := by
  intro ws
  induction ws with
  | nil =>
    intro bs pre rest d h
    simp at h
    simp [destroy_loop, set_same bs b _ h]
  | cons w ws ih =>
    intro bs pre rest d h
    have hb := lookup_lt h
    have hd := destroy_ok (x := w) h (o := pre.length)
      (by simpa using get_mid pre (ws.map some ++ rest) (some w)) ab cb c d
    have hset : (pre ++ List.map some (w :: ws) ++ rest).set pre.length none =
        (pre ++ [none]) ++ ws.map some ++ rest := by
      simp
    have hih := ih (bs.set b ⟨(pre ++ [none]) ++ ws.map some ++ rest, none⟩) (pre ++ [none]) rest
      (d + 1) (by simp [hb])
    simp only [List.length_cons, destroy_loop, bind_run, add_off, Nat.zero_add, hd, hset]
    have e : pre.length + 1 = (pre ++ [none]).length := by simp
    rw [e, hih]
    simp [List.set_set, List.replicate_succ, Nat.add_assoc, Nat.add_comm 1]

/-- Outcome of `allocate_memory(size, capacity, arr, a)` when nothing fails. -/
theorem allocate_memory_arr_ok (bs : List (Block T)) (arr : Ptr) (xs : List T) (capacity : Nat)
    (c d : Nat) (hr : Readable bs arr xs) (hcap : xs.length ≤ capacity) :
    allocate_memory_arr xs.length capacity arr ⟨bs, none, none, c, d⟩ =
      .ok ⟨some bs.length, 0⟩
        ⟨bs ++ [⟨xs.map some ++ List.replicate (capacity - xs.length) none, none⟩],
          none, none, c + xs.length, d⟩ := by
  have h := copy_try_ok bs arr none d xs 0 [] (List.replicate capacity none) c rfl
    (by simpa using hcap) (by intro i hi; simpa using hr i hi)
  simp only [List.nil_append] at h
  simp [allocate_memory_arr, allocate_ok, h]

/-- Outcome of `allocate_memory(size, capacity, value, a)` when nothing fails. -/
theorem allocate_memory_ok (bs : List (Block T)) (value : T) (size capacity : Nat)
    (c d : Nat) (hcap : size ≤ capacity) :
    allocate_memory size capacity value ⟨bs, none, none, c, d⟩ =
      .ok ⟨some bs.length, 0⟩
        ⟨bs ++ [⟨List.replicate size (some value) ++ List.replicate (capacity - size) none, none⟩],
          none, none, c + size, d⟩ := by
  have h := fill_try_ok bs value none d size 0 [] (List.replicate capacity none) c rfl
    (by simpa using hcap)
  simp only [List.nil_append] at h
  simp [allocate_memory, allocate_ok, h]

/-- Outcome of `deallocate_memory(size, capacity, arr, a)` on a live block of
`capacity` slots whose first `size` slots hold constructed elements. -/
theorem deallocate_memory_ok (bs : List (Block T)) (b : Nat) (xs : List T)
    (rest : List (Option T)) (h : bs[b]? = some ⟨xs.map some ++ rest, none⟩)
    (capacity : Nat) (hcap : capacity = xs.length + rest.length) (ab cb : Option Nat)
    (c d : Nat) :
    deallocate_memory xs.length capacity ⟨some b, 0⟩ ⟨bs, ab, cb, c, d⟩ =
      .ok () ⟨bs.set b ⟨List.replicate xs.length none ++ rest, some capacity⟩, ab, cb, c,
        d + xs.length⟩ := by
  have hb := lookup_lt h
  have hl := destroy_loop_ok b ab cb c xs bs [] rest d (by simpa using h)
  simp only [List.length_nil, List.nil_append] at hl
  have hd := deallocate_ok (bs.set b ⟨List.replicate xs.length none ++ rest, none⟩)
    b (List.replicate xs.length none ++ rest) (by simp [hb]) capacity (by simp [hcap]) ab cb c
    (d + xs.length)
  simp [deallocate_memory, nullptr, hl, hd, List.set_set]

theorem deallocate_memory_null (size capacity : Nat) (m : Mem T) :
    deallocate_memory size capacity ⟨none, 0⟩ m = .ok () m := by
  simp [deallocate_memory, nullptr]

end Loops

section Reserve
variable {T : Type}

theorem onMem_run {α : Type} (x : M (Mem T) α) (s : St T) :
    onMem x s =
      match x s.mem with
      | .ok a m => .ok a { s with mem := m }
      | .throw e m => .throw e { s with mem := m }
      | .ub => .ub := rfl

theorem readable_nil (bs : List (Block T)) (arr : Ptr) : Readable bs arr [] := by
  intro i hi; simp at hi

theorem readable_block {bs : List (Block T)} {b : Nat} (xs : List T) (rest : List (Option T))
    (h : bs[b]? = some ⟨xs.map some ++ rest, none⟩) : Readable bs ⟨some b, 0⟩ xs := by
  intro i hi
  simp only [add_off, Nat.zero_add]
  rw [peek_live h, List.getElem?_append_left (by simpa using hi)]
  simp [List.getElem?_eq_getElem hi]

/-- A vector that stores `xs` in a block has them at the front of that block. -/
theorem stored_block {bs : List (Block T)} {ab cb : Option Nat} {c d b sz cap : Nat}
    {al : Allocator} {xs : List T} {o : Nat}
    (h : Stored ⟨bs, ab, cb, c, d⟩ ⟨⟨some b, o⟩, sz, cap, al⟩ xs) :
    o = 0 ∧ sz = xs.length ∧ ∃ rest, bs[b]? = some ⟨xs.map some ++ rest, none⟩ := by
  obtain ⟨h1, h3, h4⟩ := h
  try dsimp only at h1 h3 h4
  cases hb : bs[b]? with
  | none => simp [hb] at h4
  | some blk =>
    obtain ⟨cells, freed⟩ := blk
    simp only [hb] at h4
    obtain ⟨hf, ht⟩ := h4
    try dsimp only at hf ht
    subst hf
    refine ⟨h3, h1, cells.drop sz, ?_⟩
    rw [← ht, List.take_append_drop]

theorem stored_null {m : Mem T} {o sz cap : Nat} {al : Allocator} {xs : List T}
    (h : Stored m ⟨⟨none, o⟩, sz, cap, al⟩ xs) : o = 0 ∧ sz = 0 ∧ xs = [] := by
  obtain ⟨h1, h3, h4⟩ := h
  try dsimp only at h1 h3 h4
  subst h4
  exact ⟨h3, h1, rfl⟩

theorem slots_block {bs : List (Block T)} {b : Nat} {cs : List (Option T)}
    (h : bs[b]? = some ⟨cs, none⟩) (o : Nat) : slots bs ⟨some b, o⟩ = cs.length := by
  simp [slots, liveBlock_live h]

/-- Overwriting the cells of a block by as many cells keeps its number of slots. -/
theorem slots_set {bs : List (Block T)} {b : Nat} {cs cs1 : List (Option T)}
    (h : bs[b]? = some ⟨cs, none⟩) (hl : cs1.length = cs.length) :
    slots (bs.set b ⟨cs1, none⟩) ⟨some b, 0⟩ = slots bs ⟨some b, 0⟩ := by
  have hlt := lookup_lt h
  have h1 : (bs.set b ⟨cs1, none⟩)[b]? = some ⟨cs1, none⟩ := by simp [hlt]
  rw [slots_block h, slots_block h1, hl]

theorem stored_intro {bs : List (Block T)} {ab cb : Option Nat} {c d b cap : Nat}
    {al : Allocator} {xs : List T} {rest : List (Option T)}
    (hb : bs[b]? = some ⟨xs.map some ++ rest, none⟩) :
    Stored ⟨bs, ab, cb, c, d⟩ ⟨⟨some b, 0⟩, xs.length, cap, al⟩ xs := by
  refine ⟨rfl, rfl, ?_⟩
  simp [hb]

theorem holds_intro (bs : List (Block T)) (ab cb : Option Nat) (c d b cap : Nat)
    (al : Allocator) (xs : List T) (rest : List (Option T))
    (hb : bs[b]? = some ⟨xs.map some ++ rest, none⟩) (h1 : xs.length ≤ cap)
    (h2 : cap ≤ xs.length + rest.length) :
    Holds ⟨bs, ab, cb, c, d⟩ ⟨⟨some b, 0⟩, xs.length, cap, al⟩ xs := by
  refine ⟨stored_intro hb, h1, ?_⟩
  simp [slots_block hb, h2]

/-- A vector that holds `xs` in a block: the block has room for the capacity. -/
theorem holds_block {bs : List (Block T)} {ab cb : Option Nat} {c d b sz cap : Nat}
    {al : Allocator} {xs : List T} {o : Nat}
    (h : Holds ⟨bs, ab, cb, c, d⟩ ⟨⟨some b, o⟩, sz, cap, al⟩ xs) :
    o = 0 ∧ sz = xs.length ∧ xs.length ≤ cap ∧
      ∃ rest, bs[b]? = some ⟨xs.map some ++ rest, none⟩ ∧ cap ≤ xs.length + rest.length := by
  obtain ⟨hs, h2, h3⟩ := h
  obtain ⟨ho, hsz, rest, hb⟩ := stored_block hs
  subst ho hsz
  refine ⟨rfl, rfl, h2, rest, hb, ?_⟩
  simpa [slots_block hb] using h3

theorem holds_null {m : Mem T} {o sz cap : Nat} {al : Allocator} {xs : List T}
    (h : Holds m ⟨⟨none, o⟩, sz, cap, al⟩ xs) : o = 0 ∧ sz = 0 ∧ cap = 0 ∧ xs = [] := by
  obtain ⟨hs, _, h3⟩ := h
  obtain ⟨ho, hsz, hx⟩ := stored_null hs
  refine ⟨ho, hsz, ?_, hx⟩
  simpa [slots, liveBlock] using h3

theorem owns_intro (bs : List (Block T)) (ab cb : Option Nat) (c d b cap : Nat)
    (al : Allocator) (xs : List T) (rest : List (Option T))
    (hb : bs[b]? = some ⟨xs.map some ++ rest, none⟩) (h : cap = xs.length + rest.length) :
    Owns ⟨bs, ab, cb, c, d⟩ ⟨⟨some b, 0⟩, xs.length, cap, al⟩ xs := by
  refine ⟨holds_intro bs ab cb c d b cap al xs rest hb (by omega) (by omega), ?_⟩
  simp [slots_block hb, h]

/-- A vector with a null `data_` owns its (absent) storage. -/
theorem owns_of_null {m : Mem T} {v : Vec} {xs : List T} (h : Holds m v xs)
    (hn : v.data_.base = none) : Owns m v xs := by
  obtain ⟨⟨base, o⟩, sz, cap, al⟩ := v
  dsimp only at hn
  subst hn
  obtain ⟨_, _, hc, _⟩ := holds_null h
  subst hc
  exact ⟨h, by simp [slots, liveBlock]⟩

theorem get2a {α : Type} (l : List α) (x y : α) {k : Nat} (h : k = l.length) :
    (l ++ [x] ++ [y])[k]? = some x := by
  subst h; rw [List.append_assoc]; exact get_mid l [y] x

theorem get2b {α : Type} (l : List α) (x y : α) {k : Nat} (h : k = l.length + 1) :
    (l ++ [x] ++ [y])[k]? = some y := by
  subst h
  have := get_mid (l ++ [x]) [] y
  simpa using this

theorem get1a {α : Type} (l : List α) (x : α) {k : Nat} (h : k = l.length) :
    (l ++ [x])[k]? = some x := by
  subst h; simp

theorem get1lt {α : Type} (l : List α) (x : α) {k : Nat} (h : k < l.length) :
    (l ++ [x])[k]? = l[k]? := List.getElem?_append_left h

theorem set2a {α : Type} (l : List α) (x y z : α) {k : Nat} (h : k = l.length) :
    (l ++ [x] ++ [y]).set k z = l ++ [z] ++ [y] := by
  subst h; simp

theorem set1lt {α : Type} (l : List α) (x z : α) {k : Nat} (h : k < l.length) :
    (l ++ [x]).set k z = l.set k z ++ [x] := by
  simp [List.set_append_left _ _ h]

theorem reserve_grow_block (bs : List (Block T)) (b : Nat) (xs : List T)
    (rest : List (Option T)) (cap n c d : Nat) (al : Allocator)
    (hb : bs[b]? = some ⟨xs.map some ++ rest, none⟩) (he : cap = xs.length + rest.length)
    (hn : cap ≤ n) :
    reserve n ⟨⟨⟨some b, 0⟩, xs.length, cap, al⟩, ⟨bs, none, none, c, d⟩⟩ =
      .ok () ⟨⟨⟨some (bs.length + 1), 0⟩, xs.length, n, al⟩,
        reserved bs (some b) xs rest cap n c d⟩ := by
  have hc : xs.length ≤ cap := by omega
  have hlt := lookup_lt hb
  have a1 := allocate_memory_arr_ok bs ⟨some b, 0⟩ xs cap c d (readable_block xs rest hb) hc
  have a2 := deallocate_memory_ok
    (bs ++ [(⟨xs.map some ++ List.replicate (cap - xs.length) none, none⟩ : Block T)])
    b xs rest
    (by rw [get1lt _ _ hlt]; exact hb) cap he none none (c + xs.length) d
  rw [set1lt _ _ _ hlt] at a2
  have a3 := allocate_memory_arr_ok
    (bs.set b ⟨List.replicate xs.length none ++ rest, some cap⟩ ++
      [⟨xs.map some ++ List.replicate (cap - xs.length) none, none⟩])
    ⟨some bs.length, 0⟩ xs n (c + xs.length) (d + xs.length)
    (readable_block xs _ (get1a _ _ (by simp))) (by omega)
  have a4 := deallocate_memory_ok
    (bs.set b ⟨List.replicate xs.length none ++ rest, some cap⟩ ++
      [(⟨xs.map some ++ List.replicate (cap - xs.length) none, none⟩ : Block T)] ++
      [(⟨xs.map some ++ List.replicate (n - xs.length) none, none⟩ : Block T)]) bs.length xs
    (List.replicate (cap - xs.length) none)
    (get2a _ _ _ (by simp)) cap (by simp; omega) none none (c + xs.length + xs.length)
    (d + xs.length)
  rw [set2a _ _ _ _ (by simp)] at a4
  have hlen : (bs.set b ⟨List.replicate xs.length none ++ rest, some cap⟩ ++
      [(⟨xs.map some ++ List.replicate (cap - xs.length) none, none⟩ : Block T)]).length =
      bs.length + 1 := by
    simp
  rw [hlen] at a3
  simp only [reserve, bind_run, getSelf, Nat.not_lt.mpr hn, if_false, onMem_run, vector_copy,
    a1, pure_run, unwinding, vector_dtor, setData, setCapacity, modS, a2, a3, a4, reserved]

theorem reserve_grow_null (bs : List (Block T)) (cap n c d : Nat) (al : Allocator)
    (hn : cap ≤ n) :
    reserve n ⟨⟨⟨none, 0⟩, 0, cap, al⟩, ⟨bs, none, none, c, d⟩⟩ =
      .ok () ⟨⟨⟨some (bs.length + 1), 0⟩, 0, n, al⟩,
        reserved bs none ([] : List T) [] cap n c d⟩ := by
  have a1 := allocate_memory_arr_ok bs ⟨none, 0⟩ ([] : List T) cap c d (readable_nil _ _)
    (Nat.zero_le _)
  have a3 := allocate_memory_arr_ok (bs ++ [⟨List.replicate cap none, none⟩]) ⟨some bs.length, 0⟩
    ([] : List T) n c d (readable_nil _ _) (Nat.zero_le _)
  have a4 := deallocate_memory_ok
    (bs ++ [(⟨List.replicate cap none, none⟩ : Block T)] ++
      [(⟨List.replicate n none, none⟩ : Block T)]) bs.length
    ([] : List T) (List.replicate cap none) (get2a _ _ _ rfl) cap (by simp) none none c d
  rw [set2a _ _ _ _ rfl] at a4
  simp only [List.length_nil, List.map_nil, List.nil_append, Nat.sub_zero, Nat.add_zero,
    List.replicate_zero, List.length_append, List.length_singleton] at a1 a3 a4
  simp only [reserve, bind_run, getSelf, Nat.not_lt.mpr hn, if_false, onMem_run, vector_copy,
    a1, pure_run, unwinding, vector_dtor, setData, setCapacity, modS,
    deallocate_memory_null, a3, a4, reserved,
    List.length_nil, List.map_nil, List.nil_append, Nat.sub_zero, Nat.add_zero,
    List.replicate_zero]

/-- The member `reserve(n)` with `n ≥ capacity_` when nothing fails, on a vector
that stores `xs`, whose `capacity_` is at least its size and, when it has a
block, is the number of slots of that block: the elements move to a fresh block
of exactly `n` slots. -/
theorem reserve_grow (v : Vec) (m : Mem T) (xs : List T) (n : Nat)
    (hS : Stored m v xs) (hsz : v.size_ ≤ v.capacity_)
    (hE : v.data_.base ≠ none → v.capacity_ = slots m.blocks v.data_)
    (hN : NoFail m) (hn : v.capacity_ ≤ n) :
    ∃ m1, reserve n ⟨v, m⟩ =
        .ok () ⟨{ v with data_ := ⟨some (m.blocks.length + 1), 0⟩, capacity_ := n }, m1⟩ ∧
      Owns m1 { v with data_ := ⟨some (m.blocks.length + 1), 0⟩, capacity_ := n } xs ∧
      NoFail m1 ∧ m1.blocks.length = m.blocks.length + 2 := by
  obtain ⟨bs, ab, cb, c, d⟩ := m
  obtain ⟨⟨base, o⟩, sz, cap, al⟩ := v
  obtain ⟨hab, hcb⟩ := hN
  dsimp only at hab hcb hn hsz hE
  subst hab hcb
  cases base with
  | none =>
    obtain ⟨ho, hs, hx⟩ := stored_null hS
    subst ho hs hx
    refine ⟨_, reserve_grow_null bs cap n c d al hn, ?_, ⟨rfl, rfl⟩, by simp [reserved]⟩
    have := owns_intro
      (bs ++ [⟨List.replicate cap none, some cap⟩] ++ [⟨List.replicate n none, none⟩])
      none none c d (bs.length + 1) n al ([] : List T)
      (List.replicate n none) (get2b _ _ _ rfl) (by simp)
    simpa [reserved] using this
  | some b =>
    obtain ⟨ho, hs, rest, hb⟩ := stored_block hS
    subst ho hs
    have he : cap = xs.length + rest.length := by
      have := hE (by simp)
      simpa [slots_block hb] using this
    refine ⟨_, reserve_grow_block bs b xs rest cap n c d al hb he hn, ?_, ⟨rfl, rfl⟩,
      by simp [reserved]⟩
    exact owns_intro _ _ _ _ _ _ _ _ _ _ (get2b _ _ _ (by simp)) (by simp; omega)

end Reserve

section PushBack
variable {T : Type}

/-- Constructing at `end()` of a vector with spare capacity appends the value;
the block keeps its slots. -/
theorem construct_end (v : Vec) (m : Mem T) (xs : List T) (x : T)
    (hH : Holds m v xs) (hN : NoFail m) (hlt : v.size_ < v.capacity_) :
    ∃ m1, construct (end_ v) x m = .ok () m1 ∧
      Holds m1 { v with size_ := v.size_ + 1 } (xs ++ [x]) ∧ NoFail m1 ∧
      m1.blocks.length = m.blocks.length ∧
      slots m1.blocks v.data_ = slots m.blocks v.data_ := by
  obtain ⟨bs, ab, cb, c, d⟩ := m
  obtain ⟨⟨base, o⟩, sz, cap, al⟩ := v
  obtain ⟨hab, hcb⟩ := hN
  dsimp only at hab hcb hlt
  subst hab hcb
  cases base with
  | none =>
    obtain ⟨_, hs, hc, _⟩ := holds_null hH
    omega
  | some b =>
    obtain ⟨ho, hs, hc, rest, hb, hr⟩ := holds_block hH
    subst ho hs
    have hlt2 := lookup_lt hb
    cases rest with
    | nil => simp at hr; omega
    | cons r rest =>
      have hc := construct_ok hb (o := xs.length) (by simp) x none c d
      have hm : (List.map some xs ++ r :: rest).set xs.length (some x) =
          List.map some (xs ++ [x]) ++ rest := by
        have := set_mid (xs.map some) rest r (some x)
        simp only [List.length_map] at this
        simp [this]
      rw [hm] at hc
      refine ⟨_, by simpa [end_] using hc, ?_, ⟨rfl, rfl⟩, by simp, ?_⟩
      · have := holds_intro (bs.set b ⟨List.map some (xs ++ [x]) ++ rest, none⟩) none none
          (c + 1) d b cap al (xs ++ [x]) rest
          (by simp [hlt2]) (by simp; omega) (by simp at hr ⊢; omega)
        simpa using this
      · exact slots_set hb (by simp)

/-- Constructing at `end()` of a vector that owns its block and has spare
capacity appends the value; the block keeps its slots. -/
theorem construct_end_owns (v : Vec) (m : Mem T) (xs : List T) (x : T)
    (hH : Owns m v xs) (hN : NoFail m) (hlt : v.size_ < v.capacity_) :
    ∃ m1, construct (end_ v) x m = .ok () m1 ∧
      Owns m1 { v with size_ := v.size_ + 1 } (xs ++ [x]) ∧ NoFail m1 ∧
      m1.blocks.length = m.blocks.length := by
  obtain ⟨m1, hc, hH1, hN1, hl, hsl⟩ := construct_end v m xs x hH.1 hN hlt
  refine ⟨m1, hc, ⟨hH1, ?_⟩, hN1, hl⟩
  show v.capacity_ = slots m1.blocks v.data_
  rw [hsl]
  exact hH.2

/-- The member `push_back(value)` on a vector with spare capacity when nothing
fails: the value is constructed at `end()`, nothing is allocated or released. -/
theorem push_back_spare (v : Vec) (m : Mem T) (xs : List T) (x : T)
    (hH : Holds m v xs) (hN : NoFail m) (hlt : v.size_ < v.capacity_) :
    ∃ m1, push_back x ⟨v, m⟩ = .ok () ⟨{ v with size_ := v.size_ + 1 }, m1⟩ ∧
      Holds m1 { v with size_ := v.size_ + 1 } (xs ++ [x]) ∧ NoFail m1 ∧
      m1.blocks.length = m.blocks.length ∧
      slots m1.blocks v.data_ = slots m.blocks v.data_ := by
  obtain ⟨m1, hc, hH1, hN1, hl, hsl⟩ := construct_end v m xs x hH hN hlt
  refine ⟨m1, ?_, hH1, hN1, hl, hsl⟩
  have hne : ¬ (v.size_ = v.capacity_) := by omega
  simp only [push_back, bind_run, getSelf, hne, if_false, pure_run, onMem_run, hc,
    setSize, modS]

/-- The member `push_back(value)` when nothing fails, on a vector that owns its
block and has no block when its capacity is 0: the value is appended; a full
vector first moves to a block of twice the capacity, where a capacity of 0
counts as 1. -/
theorem push_back_ok (v : Vec) (m : Mem T) (xs : List T) (x : T)
    (hH : Owns m v xs) (hZ : v.capacity_ = 0 → v.data_.base = none) (hN : NoFail m) :
    ∃ v1 m1, push_back x ⟨v, m⟩ = .ok () ⟨v1, m1⟩ ∧ Owns m1 v1 (xs ++ [x]) ∧ NoFail m1 ∧
      v1.size_ = v.size_ + 1 ∧ v1.allocator_ = v.allocator_ ∧
      v1.capacity_ =
        (if v.size_ = v.capacity_ then (if v.capacity_ = 0 then 2 else v.capacity_ * 2)
         else v.capacity_) ∧
      (v.size_ < v.capacity_ → v1.data_ = v.data_ ∧ m1.blocks.length = m.blocks.length) := by
  obtain ⟨data, sz, cap, al⟩ := v
  by_cases hfull : sz = cap
  · subst hfull
    by_cases hz : sz = 0
    · subst hz
      have hS : Stored m ⟨data, 0, 1, al⟩ xs := hH.1.1
      have hnull : data.base = none := hZ rfl
      obtain ⟨m1, hr, hH1, hN1, _⟩ := reserve_grow ⟨data, 0, 1, al⟩ m xs 2 hS
        (by dsimp only; omega) (fun h => absurd hnull h) hN (by dsimp only; omega)
      obtain ⟨m2, hc, hH2, hN2, _⟩ := construct_end_owns _ m1 xs x hH1 hN1
        (by dsimp only; omega)
      dsimp only at hr hc hH2
      refine ⟨_, m2, ?_, hH2, hN2, rfl, rfl, by simp, by dsimp only; omega⟩
      simp only [push_back, bind_run, getSelf, if_true, setCapacity, modS, pure_run,
        Nat.one_mul, hr, onMem_run, hc, setSize]
    · obtain ⟨m1, hr, hH1, hN1, _⟩ := reserve_grow ⟨data, sz, sz, al⟩ m xs (sz * 2) hH.1.1
        (Nat.le_refl _) (fun _ => hH.2) hN (by dsimp only; omega)
      obtain ⟨m2, hc, hH2, hN2, _⟩ := construct_end_owns _ m1 xs x hH1 hN1
        (by dsimp only; omega)
      dsimp only at hr hc hH2
      refine ⟨_, m2, ?_, hH2, hN2, rfl, rfl, by simp [hz], by dsimp only; omega⟩
      simp only [push_back, bind_run, getSelf, hz, if_true, if_false, pure_run,
        hr, onMem_run, hc, setSize, modS]
  · have hlt : sz < cap := by have := hH.1.2.1; dsimp only at this; omega
    obtain ⟨m2, hc, hH2, hN2, hl⟩ := construct_end_owns ⟨data, sz, cap, al⟩ m xs x hH hN hlt
    dsimp only at hc hH2
    refine ⟨_, m2, ?_, hH2, hN2, rfl, rfl, by simp [hfull], fun _ => ⟨rfl, hl⟩⟩
    simp only [push_back, bind_run, getSelf, hfull, if_false, pure_run, onMem_run, hc,
      setSize, modS]

end PushBack

section Erase
variable {T : Type}

end Erase

section Observe
variable {T : Type}

/-- The elements of a vector that stores `xs` can be read through `data_`. -/
theorem stored_peek {m : Mem T} {v : Vec} {xs : List T} (h : Stored m v xs) (i : Nat)
    (hi : i < xs.length) : peek m.blocks (v.data_.add i) = xs[i]? := by
  obtain ⟨bs, ab, cb, c, d⟩ := m
  obtain ⟨⟨base, o⟩, sz, cap, al⟩ := v
  cases base with
  | none =>
    obtain ⟨_, _, hx⟩ := stored_null h
    subst hx
    simp at hi
  | some b =>
    obtain ⟨ho, _, rest, hb⟩ := stored_block h
    subst ho
    exact readable_block xs rest hb i hi

/-- Reading a vector that stores `xs` slot by slot yields `xs`. -/
theorem stored_contents {m : Mem T} {v : Vec} {xs : List T} (h : Stored m v xs) :
    contents m v = xs.map some := by
  apply List.ext_getElem?
  intro i
  by_cases hi : i < xs.length
  · have hs : i < v.size_ := by rw [h.1]; exact hi
    simp [contents, List.getElem?_range hs, hs, stored_peek h i hi, List.getElem?_eq_getElem hi]
  · have hs : ¬ i < v.size_ := by rw [h.1]; exact hi
    have h1 : xs[i]? = none := by simp; omega
    have h2 : (List.range v.size_)[i]? = none := by simp; omega
    simp [contents, h1, h2]

end Observe

/-! ## The claims -/

section Claims
variable {T : Type}

/-- C1 (size() <= capacity() after every mutating operation): evaluated on
`vector<T> v(3, 7); v.insert(v.begin(), 9);`.  The constructor yields a valid
full vector holding 7, 7, 7; `insert` at the valid position `begin()` then
leaves the elements 9, 7, 7, 7 with `size() == 4` and `capacity() == 3`, so the
invariant fails, and the following `push_back` constructs past the end of the
block. -/
theorem C1_insert_into_full_vector_exceeds_capacity :
    ∃ v m p v1 m1,
      vector_fill 3 (7 : Nat) default (Mem.fresh Nat none none) = .ok v m ∧
      Holds m v [7, 7, 7] ∧
      insert (begin_ v) 9 ⟨v, m⟩ = .ok p ⟨v1, m1⟩ ∧
      contents m1 v1 = [some 9, some 7, some 7, some 7] ∧
      size v1 = 4 ∧ capacity v1 = 3 ∧ ¬ size v1 ≤ capacity v1 ∧
      push_back 5 ⟨v1, m1⟩ = .ub := by
  refine ⟨⟨⟨some 0, 0⟩, 3, 3, ⟨0⟩⟩, ⟨[⟨[some 7, some 7, some 7], none⟩], none, none, 3, 0⟩,
    ⟨some 1, 0⟩, ⟨⟨some 1, 0⟩, 4, 3, ⟨0⟩⟩,
    ⟨[⟨[none, none, none], some 3⟩, ⟨[some 9, some 7, some 7, some 7], none⟩], none, none, 10, 3⟩,
    by decide!, ?_, by decide!, by decide!, by decide!, by decide!, by decide!, by decide!⟩
  simp [Holds, Stored, slots, liveBlock]

/-- C2 (insert before index k returns the position of the inserted element):
evaluated on a vector holding the single element 1 with capacity 2 (one
`push_back` on an empty vector) and `insert(begin(), 9)`.  The body of `insert`
up to its growth test builds the block `buffer` of `capacity_ + 1 = 3` slots
holding 9, 1, sets `position` to `buffer + 0` and releases the old block.  The
new size 2 equals the stale `capacity_`, so `insert` calls `reserve(4)`, which
releases `buffer` with the count 2 although it has 3 slots: the call is
undefined, and no position of an element is returned. -/
theorem C2_insert_growth_step_is_undefined :
    ∃ v m buffer position m1,
      push_back (1 : Nat) ⟨vector_default, Mem.fresh Nat none none⟩ = .ok () ⟨v, m⟩ ∧
      Holds m v [1] ∧ size v = 1 ∧ capacity v = 2 ∧
      (allocate_memory v.size_ (v.capacity_ + 1) 1 >>= fun buffer =>
        insert_loop v.data_ buffer ((begin_ v).add 0) 9 v.size_ 0 0 ((begin_ v).add 0) >>=
          fun position =>
        deallocate_memory v.size_ v.capacity_ v.data_ >>= fun _ =>
        pure (buffer, position)) m = .ok (buffer, position) m1 ∧
      position = buffer.add 0 ∧
      contents m1 { v with data_ := buffer, size_ := 2 } = [some 9, some 1] ∧
      slots m1.blocks buffer = 3 ∧
      deallocate_memory 2 2 buffer m1 = .ub ∧
      reserve 4 ⟨{ v with data_ := buffer, size_ := 2 }, m1⟩ = .ub ∧
      insert ((begin_ v).add 0) 9 ⟨v, m⟩ = .ub := by
  refine ⟨⟨⟨some 1, 0⟩, 1, 2, ⟨0⟩⟩,
    ⟨[⟨[none], some 1⟩, ⟨[some 1, none], none⟩], none, none, 1, 0⟩,
    ⟨some 2, 0⟩, ⟨some 2, 0⟩,
    ⟨[⟨[none], some 1⟩, ⟨[none, none], some 2⟩, ⟨[some 9, some 1, none], none⟩],
      none, none, 4, 1⟩,
    by decide!, ?_, by decide!, by decide!, by decide!, by decide!, by decide!, by decide!,
    by decide!, by decide!, by decide!⟩
  simp [Holds, Stored, slots, liveBlock]

/-- C4 (at): `at(i)` throws exactly when `i ≥ size()`, and then it is
`out_of_range`; for `i < size()` on a vector storing `xs` it returns the
reference to `data_[i]`, through which the `i`-th element of `xs` is read; the
vector and the heap are unchanged in both cases. -/
theorem C4_at (v : Vec) (m : Mem T) (xs : List T) (i : Nat) (hS : Stored m v xs) :
    ((∃ e s1, at_ i ⟨v, m⟩ = .throw e s1) ↔ size v ≤ i) ∧
    (size v ≤ i → at_ i ⟨v, m⟩ = .throw .out_of_range ⟨v, m⟩) ∧
    (i < size v → ∃ x, xs[i]? = some x ∧
      at_ i ⟨v, m⟩ = .ok ((begin_ v).add i) ⟨v, m⟩ ∧
      read ((begin_ v).add i) m = .ok x m) := by
  refine ⟨?_, ?_, ?_⟩
  · by_cases h : size v ≤ i
    · simp [at_, getSelf, h, raise]
    · simp [at_, getSelf, h]
  · intro h
    simp [at_, getSelf, h, raise]
  · intro h
    have hi : i < xs.length := by rw [← hS.1]; exact h
    refine ⟨xs[i], List.getElem?_eq_getElem hi, ?_, ?_⟩
    · simp [at_, getSelf, Nat.not_le.mpr h, begin_]
    · apply read_of_peek
      rw [begin_, stored_peek hS i hi, List.getElem?_eq_getElem hi]

/-- Witness for C4: `at(2)` on the sample vector holding 1, 2, 3. -/
theorem C4_at_witness :
    Stored sample_mem sample_vec [1, 2, 3] ∧
    (((∃ e s1, at_ 2 ⟨sample_vec, sample_mem⟩ = .throw e s1) ↔ size sample_vec ≤ 2) ∧
    (size sample_vec ≤ 2 →
      at_ 2 ⟨sample_vec, sample_mem⟩ = .throw .out_of_range ⟨sample_vec, sample_mem⟩) ∧
    (2 < size sample_vec → ∃ x, [1, 2, 3][2]? = some x ∧
      at_ 2 ⟨sample_vec, sample_mem⟩ = .ok ((begin_ sample_vec).add 2) ⟨sample_vec, sample_mem⟩ ∧
      read ((begin_ sample_vec).add 2) sample_mem = .ok x sample_mem)) :=
  ⟨by simp [Stored, sample_mem, sample_vec],
    C4_at sample_vec sample_mem [1, 2, 3] 2 (by simp [Stored, sample_mem, sample_vec])⟩

/-- Inserting at `end()` runs `push_back` and returns the old `end()`. -/
theorem insert_end_eq (x : T) (s : St T) :
    insert (end_ s.self) x s =
      match push_back x s with
      | .ok _ s1 => .ok (end_ s.self) s1
      | .throw e s1 => .throw e s1
      | .ub => .ub := by
  simp only [insert, bind_run, getSelf, if_true]
  cases push_back x s <;> rfl

/-- Inserting at `end()` on a vector that holds `xs` in a block of exactly
`capacity()` slots and has no block when its capacity is 0 (nothing failing):
`insert(end(), x)` and `push_back(x)` end in the same vector and heap; the
elements are `xs` followed by `x`, `x` is at index `size() - 1`, the first
`size` elements are the old ones, and `size()` has grown by one. -/
theorem insert_at_end_ok (v : Vec) (m : Mem T) (xs : List T) (x : T)
    (hH : Owns m v xs) (hZ : capacity v = 0 → v.data_ = nullptr) (hN : NoFail m) :
    ∃ v1 m1, push_back x ⟨v, m⟩ = .ok () ⟨v1, m1⟩ ∧
      insert (end_ v) x ⟨v, m⟩ = .ok (end_ v) ⟨v1, m1⟩ ∧
      Owns m1 v1 (xs ++ [x]) ∧
      contents m1 v1 = contents m v ++ [some x] ∧
      peek m1.blocks ((begin_ v1).add (size v1 - 1)) = some x ∧
      (contents m1 v1).take (size v) = contents m v ∧
      size v1 = size v + 1 := by
  obtain ⟨v1, m1, hp, hH1, _, hs, _, _, _⟩ := push_back_ok v m xs x hH
    (fun h => by rw [hZ h]; rfl) hN
  have hc := stored_contents hH.1.1
  have hc1 := stored_contents hH1.1.1
  have hsz : size v = xs.length := hH.1.1.1
  refine ⟨v1, m1, hp, ?_, hH1, ?_, ?_, ?_, hs⟩
  · have := insert_end_eq x ⟨v, m⟩
    simpa [hp] using this
  · simp [hc, hc1]
  · have := stored_peek hH1.1.1 xs.length (by simp)
    have e : size v1 - 1 = xs.length := by
      show v1.size_ - 1 = xs.length
      rw [hs, hH.1.1.1]; simp
    rw [begin_, e, this]
    simp
  · rw [hc1, hc, hsz]
    simp

/-- C5 (insert at end() is push_back): evaluated on `vector<T> v(0, 7);
v.insert(v.end(), 1);`.  The constructor yields an empty vector of capacity 0
that owns a block of 0 slots.  `insert(end(), 1)` runs `push_back(1)`, which
sets `capacity_` to 1 and calls `reserve(2)`; `reserve` copies the vector and
then releases the 0-slot block with the count 1, which is undefined: the
elements do not become 1 and `size()` does not become 1. -/
theorem C5_insert_at_end_of_empty_block_is_undefined :
    ∃ v m tmp m1,
      vector_fill 0 (7 : Nat) default (Mem.fresh Nat none none) = .ok v m ∧
      Owns m v [] ∧ size v = 0 ∧ capacity v = 0 ∧ v.data_ ≠ nullptr ∧
      slots m.blocks v.data_ = 0 ∧
      vector_copy { v with capacity_ := 1 } m = .ok tmp m1 ∧
      deallocate_memory v.size_ 1 v.data_ m1 = .ub ∧
      reserve 2 ⟨{ v with capacity_ := 1 }, m⟩ = .ub ∧
      push_back 1 ⟨v, m⟩ = .ub ∧
      insert (end_ v) 1 ⟨v, m⟩ = .ub := by
  refine ⟨⟨⟨some 0, 0⟩, 0, 0, ⟨0⟩⟩, ⟨[⟨[], none⟩], none, none, 0, 0⟩,
    ⟨⟨some 1, 0⟩, 0, 1, ⟨0⟩⟩, ⟨[⟨[], none⟩, ⟨[none], none⟩], none, none, 0, 0⟩,
    by decide!, ?_, by decide!, by decide!, by decide!, by decide!, by decide!, by decide!,
    by decide!, by decide!, by decide!⟩
  simp [Owns, Holds, Stored, slots, liveBlock]

/-- The member `push_back` on an empty vector of capacity 0 that owns a block
of 0 slots, as left by `vector(0, x)` and by copying a default-constructed
vector: `capacity_` is set to 1 and `reserve(2)` releases the 0-slot block with
the count 1, which is undefined. -/
theorem push_back_on_empty_block_is_undefined :
    ∃ v m w m1,
      vector_fill 0 (7 : Nat) default (Mem.fresh Nat none none) = .ok v m ∧
      size v = 0 ∧ capacity v = 0 ∧ slots m.blocks v.data_ = 0 ∧ v.data_ ≠ nullptr ∧
      push_back 1 ⟨v, m⟩ = .ub ∧
      vector_copy vector_default (Mem.fresh Nat none none) = .ok w m1 ∧
      size w = 0 ∧ capacity w = 0 ∧ slots m1.blocks w.data_ = 0 ∧ w.data_ ≠ nullptr ∧
      push_back 1 ⟨w, m1⟩ = .ub := by
  refine ⟨⟨⟨some 0, 0⟩, 0, 0, ⟨0⟩⟩, ⟨[⟨[], none⟩], none, none, 0, 0⟩,
    ⟨⟨some 0, 0⟩, 0, 0, ⟨0⟩⟩, ⟨[⟨[], none⟩], none, none, 0, 0⟩,
    by decide!, by decide!, by decide!, by decide!, by decide!, by decide!, by decide!,
    by decide!, by decide!, by decide!, by decide!, by decide!⟩

/-- The states that `Holds` admits and `Owns` excludes: after `reserve(4)`,
`push_back(1)` and `insert(begin(), 9)` on an empty vector, the vector holds
9, 1 with size 2 and capacity 4 in a block of 5 slots (`insert` allocates
`capacity_ + 1` slots and keeps `capacity_`).  Every release of that block
passes the count 4: `erase`, `reserve`, `resize` beyond the capacity and the
destructor are undefined there. -/
theorem insert_leaves_block_of_other_size :
    ∃ v m,
      run_ops [Op.reserve 4, Op.push_back 1, Op.insert 0 9]
        ⟨vector_default, Mem.fresh Nat none none⟩ = .ok () ⟨v, m⟩ ∧
      Holds m v [9, 1] ∧ ¬ Owns m v [9, 1] ∧
      size v = 2 ∧ capacity v = 4 ∧ slots m.blocks v.data_ = 5 ∧
      erase ((begin_ v).add 0) ⟨v, m⟩ = .ub ∧ reserve 10 ⟨v, m⟩ = .ub ∧
      resize 6 5 ⟨v, m⟩ = .ub ∧ vector_dtor v m = .ub := by
  refine ⟨⟨⟨some 2, 0⟩, 2, 4, ⟨0⟩⟩,
    ⟨[⟨[], some 0⟩, ⟨[none, none, none, none], some 4⟩,
      ⟨[some 9, some 1, none, none, none], none⟩], none, none, 4, 1⟩,
    by decide!, ?_, ?_, by decide!, by decide!, by decide!, by decide!, by decide!, by decide!,
    by decide!⟩
  · simp [Holds, Stored, slots, liveBlock]
  · simp [Owns, Holds, Stored, slots, liveBlock]

/-- C8 (strong exception guarantee of reserve): evaluated on `vector<T> v(1, 7)`
and `reserve(5)` when the allocator can serve only one more allocation.  The
temporary copy takes that allocation, the original block is destroyed and
released, and then the allocation of the new block throws `bad_alloc`: the
exception reaches the caller with `data_`, `size_` and `capacity_` as before
but pointing into released storage that no longer holds the element. -/
theorem C8_reserve_failure_after_release :
    ∃ v m m1,
      vector_fill 1 (7 : Nat) default (Mem.fresh Nat (some 2) none) = .ok v m ∧
      Holds m v [7] ∧ contents m v = [some 7] ∧
      reserve 5 ⟨v, m⟩ = .throw .bad_alloc ⟨v, m1⟩ ∧
      liveBlock m1.blocks v.data_ = none ∧ contents m1 v = [none] ∧ ¬ Stored m1 v [7] := by
  refine ⟨⟨⟨some 0, 0⟩, 1, 1, ⟨0⟩⟩, ⟨[⟨[some 7], none⟩], some 1, none, 1, 0⟩,
    ⟨[⟨[none], some 1⟩, ⟨[none], some 1⟩], some 0, none, 2, 2⟩,
    by decide!, ?_, by decide!, by decide!, by decide!, by decide!, ?_⟩
  · simp [Holds, Stored, slots, liveBlock]
  · simp [Stored]

/-- C9 (move assignment): evaluated on `a = std::move(b)` with `a` holding 1, 1
and `b` holding 3, two distinct vectors.  Afterwards `a` holds 3 with `b`'s size
and capacity, but `b` is not empty: it has `a`'s former size 2 and capacity 2
and its `data_` points to `a`'s former block, which has been released, so that
destroying `b` is undefined. -/
theorem C9_move_assign_leaves_source_dangling :
    ∃ a b m a1 b1 m1,
      (vector_fill 2 (1 : Nat) default >>= fun a =>
        vector_fill 1 3 default >>= fun b => pure (a, b)) (Mem.fresh Nat none none) =
        .ok (a, b) m ∧
      Holds m a [1, 1] ∧ Holds m b [3] ∧
      assign_move false ⟨a, b, m⟩ = .ok () ⟨a1, b1, m1⟩ ∧
      Holds m1 a1 [3] ∧ size a1 = size b ∧ capacity a1 = capacity b ∧
      size b1 = 2 ∧ capacity b1 = 2 ∧ b1.data_ = a.data_ ∧
      liveBlock m1.blocks b1.data_ = none ∧ vector_dtor b1 m1 = .ub := by
  refine ⟨⟨⟨some 0, 0⟩, 2, 2, ⟨0⟩⟩, ⟨⟨some 1, 0⟩, 1, 1, ⟨0⟩⟩,
    ⟨[⟨[some 1, some 1], none⟩, ⟨[some 3], none⟩], none, none, 3, 0⟩,
    ⟨⟨some 1, 0⟩, 1, 1, ⟨0⟩⟩, ⟨⟨some 0, 0⟩, 2, 2, ⟨0⟩⟩,
    ⟨[⟨[none, none], some 2⟩, ⟨[some 3], none⟩], none, none, 3, 2⟩,
    by decide!, ?_, ?_, by decide!, ?_, by decide!, by decide!, by decide!, by decide!,
    by decide!, by decide!, by decide!⟩
  · simp [Holds, Stored, slots, liveBlock]
  · simp [Holds, Stored, slots, liveBlock]
  · simp [Holds, Stored, slots, liveBlock]

/-- C10 (move construction): for a vector `src` holding `xs`, `vector(std::move(src))`
yields a vector with `src`'s `data_`, size, capacity and allocator that holds `xs`
in the same, untouched heap (no element is constructed or destroyed), and leaves
`src` with size 0, capacity 0, a null `data_` and a default allocator. -/
theorem C10_move_construct (src : Vec) (m : Mem T) (xs : List T) (hH : Holds m src xs) :
    ∃ made src1, vector_move ⟨src, m⟩ = .ok made ⟨src1, m⟩ ∧
      Holds m made xs ∧ contents m made = xs.map some ∧
      size made = size src ∧ capacity made = capacity src ∧ made.data_ = src.data_ ∧
      made.allocator_ = src.allocator_ ∧
      size src1 = 0 ∧ capacity src1 = 0 ∧ src1.data_ = nullptr ∧ src1.allocator_ = default ∧
      Holds m src1 [] := by
  refine ⟨src, vector_default, ?_, hH, stored_contents hH.1, rfl, rfl, rfl, rfl, rfl, rfl, rfl,
    rfl, ?_⟩
  · simp [vector_move, getSelf, setSize, setCapacity, setData, modS, vector_default]
  · simp [Holds, Stored, slots, liveBlock, vector_default, nullptr]

/-- Witness for C10: move construction from the sample vector holding 1, 2, 3. -/
theorem C10_move_construct_witness :
    Holds sample_mem sample_vec [1, 2, 3] ∧
    ∃ made src1, vector_move ⟨sample_vec, sample_mem⟩ = .ok made ⟨src1, sample_mem⟩ ∧
      Holds sample_mem made [1, 2, 3] ∧ contents sample_mem made = [1, 2, 3].map some ∧
      size made = size sample_vec ∧ capacity made = capacity sample_vec ∧
      made.data_ = sample_vec.data_ ∧ made.allocator_ = sample_vec.allocator_ ∧
      size src1 = 0 ∧ capacity src1 = 0 ∧ src1.data_ = nullptr ∧ src1.allocator_ = default ∧
      Holds sample_mem src1 [] :=
  ⟨by simp [Holds, Stored, slots, liveBlock, sample_mem, sample_vec],
    C10_move_construct sample_vec sample_mem [1, 2, 3]
      (by simp [Holds, Stored, slots, liveBlock, sample_mem, sample_vec])⟩

end Claims

section Failure
variable {T : Type}

theorem construct_spend {bs : List (Block T)} {b o : Nat} {cs : List (Option T)}
    (h : bs[b]? = some ⟨cs, none⟩) (ho : o < cs.length) (x : T) (ab cb cb1 : Option Nat)
    (hs : spend cb = some cb1) (c d : Nat) :
    construct ⟨some b, o⟩ x ⟨bs, ab, cb, c, d⟩ =
      .ok () ⟨bs.set b ⟨cs.set o (some x), none⟩, ab, cb1, c + 1, d⟩ := by
  simp [construct, liveBlock_live h, ho, hs]

theorem construct_fail {bs : List (Block T)} {b o : Nat} {cs : List (Option T)}
    (h : bs[b]? = some ⟨cs, none⟩) (ho : o < cs.length) (x : T) (ab : Option Nat) (c d : Nat) :
    construct ⟨some b, o⟩ x ⟨bs, ab, some 0, c, d⟩ =
      .throw .ctor_failure ⟨bs, ab, some 0, c, d⟩ := by
  simp [construct, liveBlock_live h, ho, spend]

theorem allocate_spend (bs : List (Block T)) (n : Nat) (ab ab1 cb : Option Nat)
    (hs : spend ab = some ab1) (c d : Nat) :
    allocate n ⟨bs, ab, cb, c, d⟩ =
      .ok ⟨some bs.length, 0⟩ ⟨bs ++ [⟨List.replicate n none, none⟩], ab1, cb, c, d⟩ := by
  simp [allocate, hs]

theorem spend_of_ne_zero {ab : Option Nat} (h : ab ≠ some 0) : ∃ ab1, spend ab = some ab1 := by
  cases ab with
  | none => exact ⟨none, rfl⟩
  | some n =>
    cases n with
    | zero => exact absurd rfl h
    | succ n => exact ⟨some n, rfl⟩

/-- The fill loop when the budget allows `k` constructions and `k < n`: the
first `k` slots are constructed and the next construction throws. -/
theorem fill_try_fail (B : List (Block T)) (value : T) (ab : Option Nat) (d : Nat) :
    ∀ (k n p : Nat) (pre rest : List (Option T)) (c : Nat),
      pre.length = p → k < n → n ≤ rest.length →
      fill_try ⟨some B.length, 0⟩ value n p ⟨B ++ [⟨pre ++ rest, none⟩], ab, some k, c, d⟩ =
        .ok (p + k, some .ctor_failure)
          ⟨B ++ [⟨pre ++ List.replicate k (some value) ++ rest.drop k, none⟩], ab, some 0,
            c + k, d⟩ := by
  intro k
  induction k with
  | zero =>
    intro n p pre rest c hp hk hlen
    cases n with
    | zero => omega
    | succ n =>
      have hc := construct_fail (get_last B ⟨pre ++ rest, none⟩)
        (show p < (pre ++ rest).length by simp; omega) value ab c d
      simp [fill_try, hc]
  | succ k ih =>
    intro n p pre rest c hp hk hlen
    cases n with
    | zero => omega
    | succ n =>
      cases rest with
      | nil => simp at hlen
      | cons r rest =>
        have hc := construct_spend (get_last B ⟨pre ++ r :: rest, none⟩)
          (show p < (pre ++ r :: rest).length by simp; omega) value ab (some (k + 1)) (some k)
          rfl c d
        have hih := ih n (p + 1) (pre ++ [some value]) rest (c + 1) (by simp [hp])
          (by omega) (by simpa using hlen)
        simp only [fill_try, add_off, Nat.zero_add, hc]
        rw [set_last, ← hp, set_mid]
        rw [hp]
        have e : pre ++ some value :: rest = (pre ++ [some value]) ++ rest := by simp
        rw [e, hih]
        simp [Nat.add_assoc, Nat.add_comm 1, List.replicate_succ]

/-- Outcome of `allocate_memory(size, capacity, value, a)` when the allocation
succeeds and the budget allows only `k < size` constructions: the `k` elements
are destroyed again, the block is released with `capacity`, and the exception
of the element constructor is rethrown. -/
theorem allocate_memory_fail (bs : List (Block T)) (value : T) (size capacity k : Nat)
    (ab ab1 : Option Nat) (c d : Nat) (hs : spend ab = some ab1) (hk : k < size)
    (hcap : size ≤ capacity) :
    allocate_memory size capacity value ⟨bs, ab, some k, c, d⟩ =
      .throw .ctor_failure
        ⟨bs ++ [⟨List.replicate capacity none, some capacity⟩], ab1, some 0, c + k, d + k⟩ := by
  have h := fill_try_fail bs value ab1 d k size 0 [] (List.replicate capacity none) c rfl hk
    (by simpa using hcap)
  simp only [List.nil_append, Nat.zero_add] at h
  have hdrop : List.drop k (List.replicate capacity (none : Option T)) =
      List.replicate (capacity - k) none := by simp
  rw [hdrop] at h
  have hcells : List.replicate k (some value) ++ List.replicate (capacity - k) none =
      [] ++ (List.replicate k value).map some ++ List.replicate (capacity - k) (none : Option T) := by
    simp
  have hl := destroy_loop_ok bs.length ab1 (some 0) (c + k) (List.replicate k value)
    (bs ++ [⟨List.replicate k (some value) ++ List.replicate (capacity - k) none, none⟩])
    [] (List.replicate (capacity - k) none) d (by rw [hcells]; exact get_last _ _)
  simp only [List.length_replicate, List.length_nil, List.nil_append, set_last] at hl
  have hd := deallocate_ok
    (bs ++ [⟨List.replicate k none ++ List.replicate (capacity - k) none, none⟩]) bs.length
    (List.replicate k (none : Option T) ++ List.replicate (capacity - k) none) (get_last _ _)
    capacity (by simp; omega) ab1 (some 0) (c + k) (d + k)
  rw [set_last] at hd
  have hrep : List.replicate k (none : Option T) ++ List.replicate (capacity - k) none =
      List.replicate capacity none := by
    rw [← List.replicate_add]
    congr 1
    omega
  rw [hrep] at hd hl
  simp only [allocate_memory, bind_run, allocate_spend bs capacity ab ab1 (some k) hs, h, hl, hd,
    raise]

end Failure

section ClaimsA
variable {T : Type}

/-- C14 (failure while the items of an initializer list are constructed):
evaluated on `vector<T> v{1, 2, 3}` when the copy of the second item throws (the
budget covers the three fill constructions and the copy of the first item).
The catch block destroys the one copied item and releases the block, but does
not rethrow: the constructor returns normally with `size() == 3`,
`capacity() == 3` and `data_` pointing into the released block, and destroying
that vector is undefined. -/
theorem C14_init_list_failure_is_swallowed :
    ∃ v m1,
      vector_init [1, 2, 3] default (Mem.fresh Nat none (some 4)) = .ok v m1 ∧
      size v = 3 ∧ capacity v = 3 ∧
      m1.constructs = 4 ∧ m1.destroys = 1 ∧
      liveBlock m1.blocks v.data_ = none ∧ contents m1 v = [none, none, none] ∧
      deallocations m1 = 1 ∧ vector_dtor v m1 = .ub := by
  refine ⟨⟨⟨some 0, 0⟩, 3, 3, ⟨0⟩⟩, ⟨[⟨[none, some 1, some 1], some 3⟩], none, some 0, 4, 1⟩,
    by decide!, by decide!, by decide!, by decide!, by decide!, by decide!, by decide!,
    by decide!, by decide!⟩

/-- C15 (fill construction, failure of the k-th element): when the allocation
succeeds and the `k`-th construction (`1 ≤ k ≤ n`) throws, `vector(n, value)`
ends with that exception; exactly `k - 1` constructions and `k - 1`
destructions have happened, the one new block has `n` raw slots and is released
with the count `n`, so constructions minus destructions and allocations minus
deallocations are what they were before the call. -/
theorem C15_fill_construct_failure (n k : Nat) (value : T) (a : Allocator) (m : Mem T)
    (hk : 1 ≤ k) (hkn : k ≤ n) (hc : m.ctorBudget = some (k - 1))
    (ha : m.allocBudget ≠ some 0) :
    ∃ m1, vector_fill n value a m = .throw .ctor_failure m1 ∧
      m1.blocks = m.blocks ++ [⟨List.replicate n none, some n⟩] ∧
      m1.constructs = m.constructs + (k - 1) ∧ m1.destroys = m.destroys + (k - 1) ∧
      allocations m1 = allocations m + 1 ∧ deallocations m1 = deallocations m + 1 ∧
      m1.constructs - m1.destroys = m.constructs - m.destroys ∧
      allocations m1 - deallocations m1 = allocations m - deallocations m := by
  obtain ⟨bs, ab, cb, c, d⟩ := m
  dsimp only at hc ha
  subst hc
  obtain ⟨ab1, hs⟩ := spend_of_ne_zero ha
  have h := allocate_memory_fail bs value n n (k - 1) ab ab1 c d hs (by omega) (Nat.le_refl _)
  refine ⟨⟨bs ++ [⟨List.replicate n none, some n⟩], ab1, some 0, c + (k - 1), d + (k - 1)⟩,
    by simp [vector_fill, h], rfl, rfl, rfl, ?_, ?_, ?_, ?_⟩
  · simp [allocations]
  · simp [deallocations, List.filter_append]
  · dsimp only; omega
  · have hle : (List.filter (fun blk : Block T => blk.freed.isSome) bs).length ≤ bs.length :=
      List.length_filter_le _ _
    simp only [allocations, deallocations, List.filter_append, List.length_append]
    simp

/-- Witness for C15: five elements, the third construction fails, fresh heap. -/
theorem C15_fill_construct_failure_witness :
    (1 ≤ 3 ∧ 3 ≤ 5 ∧ (Mem.fresh Nat none (some 2)).ctorBudget = some (3 - 1) ∧
      (Mem.fresh Nat none (some 2)).allocBudget ≠ some 0) ∧
    ∃ m1, vector_fill 5 7 default (Mem.fresh Nat none (some 2)) = .throw .ctor_failure m1 ∧
      m1.blocks = (Mem.fresh Nat none (some 2)).blocks ++ [⟨List.replicate 5 none, some 5⟩] ∧
      m1.constructs = (Mem.fresh Nat none (some 2)).constructs + (3 - 1) ∧
      m1.destroys = (Mem.fresh Nat none (some 2)).destroys + (3 - 1) ∧
      allocations m1 = allocations (Mem.fresh Nat none (some 2)) + 1 ∧
      deallocations m1 = deallocations (Mem.fresh Nat none (some 2)) + 1 ∧
      m1.constructs - m1.destroys =
        (Mem.fresh Nat none (some 2)).constructs - (Mem.fresh Nat none (some 2)).destroys ∧
      allocations m1 - deallocations m1 =
        allocations (Mem.fresh Nat none (some 2)) - deallocations (Mem.fresh Nat none (some 2)) :=
  ⟨⟨by decide, by decide, rfl, by simp [Mem.fresh]⟩,
    C15_fill_construct_failure 5 3 7 default (Mem.fresh Nat none (some 2)) (by decide)
      (by decide) rfl (by simp [Mem.fresh])⟩

/-- C17 (shrink_to_fit keeps the elements): evaluated on
`vector<T> v; v.push_back(1); v.push_back(2); v.push_back(3); v.shrink_to_fit();`.
The three appends give a valid vector holding 1, 2, 3 with capacity 4.
`shrink_to_fit` destroys the elements and releases the block, and then copies
from that released block into the new one: the first read is undefined.  (With
no elements and spare capacity nothing is read and the capacity does become
0.) -/
theorem C17_shrink_to_fit_reads_released_block :
    ∃ tr v m m1,
      push_trace [1, 2, 3] ⟨vector_default, Mem.fresh Nat none none⟩ = .ok tr ⟨v, m⟩ ∧
      Holds m v [1, 2, 3] ∧ size v = 3 ∧ capacity v = 4 ∧
      shrink_to_fit ⟨v, m⟩ = .ub ∧
      deallocate_memory v.size_ v.capacity_ v.data_ m = .ok () m1 ∧
      liveBlock m1.blocks v.data_ = none ∧ read v.data_ m1 = .ub ∧
      allocate_memory_arr v.size_ v.size_ v.data_ m1 = .ub ∧
      (∃ v2 m2, shrink_to_fit
          (⟨⟨⟨some 0, 0⟩, 0, 4, default⟩, ⟨[⟨[none, none, none, none], none⟩], none, none, 0, 0⟩⟩ :
            St Nat) = .ok () ⟨v2, m2⟩ ∧ size v2 = 0 ∧ capacity v2 = 0) := by
  refine ⟨[2, 2, 4], ⟨⟨some 3, 0⟩, 3, 4, ⟨0⟩⟩,
    ⟨[⟨[none], some 1⟩, ⟨[none, none], some 2⟩, ⟨[none, none], some 2⟩,
      ⟨[some 1, some 2, some 3, none], none⟩], none, none, 7, 4⟩,
    ⟨[⟨[none], some 1⟩, ⟨[none, none], some 2⟩, ⟨[none, none], some 2⟩,
      ⟨[none, none, none, none], some 4⟩], none, none, 7, 7⟩,
    by decide!, ?_, by decide!, by decide!, by decide!, by decide!, by decide!, by decide!,
    by decide!,
    ⟨⟨some 1, 0⟩, 0, 0, ⟨0⟩⟩, ⟨[⟨[none, none, none, none], some 4⟩, ⟨[], none⟩], none, none, 0, 0⟩,
    by decide!, by decide!, by decide!⟩
  simp [Holds, Stored, slots, liveBlock]

end ClaimsA

section InitList
variable {T : Type}

theorem init_try_ok (B : List (Block T)) (ab : Option Nat) (d : Nat) :
    ∀ (ws : List T) (p : Nat) (pre rest : List (Option T)) (c : Nat),
      pre.length = p → ws.length ≤ rest.length →
      init_try ⟨some B.length, 0⟩ ws p ⟨B ++ [⟨pre ++ rest, none⟩], ab, none, c, d⟩ =
        .ok (p + ws.length, none)
          ⟨B ++ [⟨pre ++ ws.map some ++ rest.drop ws.length, none⟩], ab, none,
            c + ws.length, d⟩ := by
  intro ws
  induction ws with
  | nil => intro p pre rest c _ _; simp [init_try]
  | cons w ws ih =>
    intro p pre rest c hp hlen
    cases rest with
    | nil => simp at hlen
    | cons r rest =>
      have hc := construct_ok (get_last B ⟨pre ++ r :: rest, none⟩)
        (show p < (pre ++ r :: rest).length by simp; omega) w ab c d
      have hih := ih (p + 1) (pre ++ [some w]) rest (c + 1) (by simp [hp])
        (by simpa using hlen)
      simp only [init_try, add_off, Nat.zero_add, hc]
      rw [set_last, ← hp, set_mid]
      rw [hp]
      have e : pre ++ some w :: rest = (pre ++ [some w]) ++ rest := by simp
      rw [e, hih]
      simp [Nat.add_assoc, Nat.add_comm 1]

/-- The initializer-list constructor when nothing fails: one new block that
holds the items in order; every slot has been constructed twice. -/
theorem vector_init_ok (items : List T) (a : Allocator) (bs : List (Block T)) (c d : Nat) :
    vector_init items a ⟨bs, none, none, c, d⟩ =
      .ok ⟨⟨some bs.length, 0⟩, items.length, items.length, a⟩
        ⟨bs ++ [⟨items.map some, none⟩], none, none, c + items.length + items.length, d⟩ := by
  cases items with
  | nil =>
    simp [vector_init, allocate_memory_ref, allocate_ok, init_try]
  | cons x xs =>
    have h1 := allocate_memory_ok bs x (x :: xs).length (x :: xs).length c d (Nat.le_refl _)
    have h2 := init_try_ok bs none d (x :: xs) 0 []
      (List.replicate (x :: xs).length (some x) ++
        List.replicate ((x :: xs).length - (x :: xs).length) none) (c + (x :: xs).length) rfl
      (by simp)
    have hdrop : List.drop (x :: xs).length
        (List.replicate (x :: xs).length (some x) ++
          List.replicate ((x :: xs).length - (x :: xs).length) none) =
        ([] : List (Option T)) := by
      simp
    rw [hdrop] at h2
    simp only [List.nil_append, Nat.zero_add, List.append_nil] at h2
    simp only [vector_init, allocate_memory_ref, List.head?_cons, bind_run, h1, h2, pure_run]

end InitList

section ClaimsB
variable {T : Type}

/-- C13 (initializer-list round trip): when nothing fails, the vector built
from the list `items` has `size()` and `capacity()` equal to the length of the
list, satisfies the representation invariant with exactly `items`, and reading
it from `begin()` to `end()` yields the items in order. -/
theorem C13_init_list_round_trip (items : List T) (a : Allocator) (m : Mem T)
    (hN : NoFail m) :
    ∃ v m1, vector_init items a m = .ok v m1 ∧
      size v = items.length ∧ capacity v = items.length ∧
      Holds m1 v items ∧ contents m1 v = items.map some := by
  obtain ⟨bs, ab, cb, c, d⟩ := m
  obtain ⟨hab, hcb⟩ := hN
  dsimp only at hab hcb
  subst hab hcb
  have hH : Holds (⟨bs ++ [⟨items.map some, none⟩], none, none,
      c + items.length + items.length, d⟩ : Mem T)
      ⟨⟨some bs.length, 0⟩, items.length, items.length, a⟩ items :=
    holds_intro _ _ _ _ _ _ _ _ _ [] (by simp)
      (Nat.le_refl _) (by simp)
  exact ⟨_, _, vector_init_ok items a bs c d, rfl, rfl, hH, stored_contents hH.1⟩

/-- Witness for C13: the list 1, 2, 3 on a fresh heap. -/
theorem C13_init_list_round_trip_witness :
    NoFail (Mem.fresh Nat none none) ∧
    ∃ v m1, vector_init [1, 2, 3] default (Mem.fresh Nat none none) = .ok v m1 ∧
      size v = [1, 2, 3].length ∧ capacity v = [1, 2, 3].length ∧
      Holds m1 v [1, 2, 3] ∧ contents m1 v = [1, 2, 3].map some :=
  ⟨⟨rfl, rfl⟩, C13_init_list_round_trip [1, 2, 3] default (Mem.fresh Nat none none) ⟨rfl, rfl⟩⟩

end ClaimsB

section ClearResize
variable {T : Type}

/-- The member `clear()` on a vector holding `xs`: the elements are destroyed,
`size_` becomes 0, `data_`, `capacity_` and the slots of the block stay. -/
theorem clear_ok (v : Vec) (m : Mem T) (xs : List T) (hH : Holds m v xs) :
    ∃ m1, clear ⟨v, m⟩ = .ok () ⟨{ v with size_ := 0 }, m1⟩ ∧
      Holds m1 { v with size_ := 0 } [] ∧ m1.blocks.length = m.blocks.length ∧
      m1.allocBudget = m.allocBudget ∧ m1.ctorBudget = m.ctorBudget ∧
      slots m1.blocks v.data_ = slots m.blocks v.data_ := by
  obtain ⟨bs, ab, cb, c, d⟩ := m
  obtain ⟨⟨base, o⟩, sz, cap, al⟩ := v
  cases base with
  | none =>
    obtain ⟨ho, hs, hc, hx⟩ := holds_null hH
    subst ho hs hc hx
    exact ⟨_, by simp [clear, getSelf], hH, rfl, rfl, rfl, rfl⟩
  | some b =>
    obtain ⟨ho, hs, hc, rest, hb, hr⟩ := holds_block hH
    subst ho hs
    have hlt := lookup_lt hb
    by_cases hz : cap = 0
    · subst hz
      have hx : xs = [] := List.eq_nil_of_length_eq_zero (by omega)
      subst hx
      exact ⟨_, by simp [clear, getSelf], hH, rfl, rfl, rfl, rfl⟩
    · have hl := destroy_loop_ok b ab cb c xs bs [] rest d (by simpa using hb)
      simp only [List.length_nil, List.nil_append] at hl
      refine ⟨⟨bs.set b ⟨List.replicate xs.length none ++ rest, none⟩, ab, cb, c,
        d + xs.length⟩, ?_, ?_, ?_, rfl, rfl, ?_⟩
      · simp only [clear, bind_run, getSelf, ne_eq, hz, not_false_eq_true, if_true, onMem_run, hl,
          setSize, modS]
      · have := holds_intro (bs.set b ⟨List.replicate xs.length none ++ rest, none⟩) ab cb c
          (d + xs.length) b cap al ([] : List T) (List.replicate xs.length none ++ rest)
          (by simp [hlt]) (by simp) (by simp; omega)
        simpa using this
      · simp
      · exact slots_set hb (by simp)

/-- The member `pop_back()` on a vector holding `xs ++ [x]`. -/
theorem pop_back_ok (v : Vec) (m : Mem T) (xs : List T) (x : T) (hH : Holds m v (xs ++ [x])) :
    ∃ m1, pop_back ⟨v, m⟩ = .ok () ⟨{ v with size_ := v.size_ - 1 }, m1⟩ ∧
      Holds m1 { v with size_ := v.size_ - 1 } xs ∧ m1.blocks.length = m.blocks.length ∧
      m1.allocBudget = m.allocBudget ∧ m1.ctorBudget = m.ctorBudget ∧
      slots m1.blocks v.data_ = slots m.blocks v.data_ := by
  obtain ⟨bs, ab, cb, c, d⟩ := m
  obtain ⟨⟨base, o⟩, sz, cap, al⟩ := v
  cases base with
  | none =>
    obtain ⟨_, _, _, hx⟩ := holds_null hH
    simp at hx
  | some b =>
    obtain ⟨ho, hs, hc, rest, hb, hr⟩ := holds_block hH
    subst ho hs
    have hlt := lookup_lt hb
    have hcells : List.map some (xs ++ [x]) ++ rest = xs.map some ++ some x :: rest := by simp
    rw [hcells] at hb
    have hd := destroy_ok (x := x) hb (o := xs.length)
      (by simpa using get_mid (xs.map some) rest (some x)) ab cb c d
    have hset : (List.map some xs ++ some x :: rest).set xs.length none =
        xs.map some ++ none :: rest := by
      have := set_mid (xs.map some) rest (some x) none
      simp only [List.length_map] at this
      exact this
    rw [hset] at hd
    refine ⟨⟨bs.set b ⟨xs.map some ++ none :: rest, none⟩, ab, cb, c, d + 1⟩, ?_, ?_, by simp,
      rfl, rfl, ?_⟩
    · simp only [pop_back, bind_run, getSelf, end_, add_off, Nat.zero_add, Ptr.sub,
        List.length_append, List.length_singleton, Nat.le_add_left, if_true, pure_run,
        Nat.add_sub_cancel, onMem_run, hd, setSize, modS]
    · have := holds_intro (bs.set b ⟨xs.map some ++ none :: rest, none⟩) ab cb c (d + 1) b cap al
        xs (none :: rest) (by simp [hlt]) (by simp at hc; omega) (by simp at hr ⊢; omega)
      simpa using this
    · exact slots_set hb (by simp)

end ClearResize

section Resize
variable {T : Type}

end Resize

section ClaimsC
variable {T : Type}

/-- C18 (clear keeps the capacity): on a vector holding `xs`, `clear()` ends
with `size() == 0`, an empty vector and the capacity, `data_` and number of
blocks it had; if that capacity is at least 1 and nothing fails, a `push_back`
right after it allocates nothing, keeps `data_` and the capacity, and leaves
the vector holding exactly the pushed value. -/
theorem C18_clear_then_push_back (v : Vec) (m : Mem T) (xs : List T) (x : T)
    (hH : Holds m v xs) (hN : NoFail m) :
    ∃ v1 m1, clear ⟨v, m⟩ = .ok () ⟨v1, m1⟩ ∧
      size v1 = 0 ∧ capacity v1 = capacity v ∧ v1.data_ = v.data_ ∧
      Holds m1 v1 [] ∧ allocations m1 = allocations m ∧
      (1 ≤ capacity v → ∃ v2 m2, push_back x ⟨v1, m1⟩ = .ok () ⟨v2, m2⟩ ∧
        capacity v2 = capacity v ∧ v2.data_ = v.data_ ∧ allocations m2 = allocations m ∧
        size v2 = 1 ∧ Holds m2 v2 [x] ∧ contents m2 v2 = [some x]) := by
  obtain ⟨m1, hc, hH1, hl1, ha1, hc1, _⟩ := clear_ok v m xs hH
  have hN1 : NoFail m1 := ⟨by rw [ha1]; exact hN.1, by rw [hc1]; exact hN.2⟩
  refine ⟨_, m1, hc, rfl, rfl, rfl, hH1, hl1, ?_⟩
  intro hcap
  simp only [capacity] at hcap
  obtain ⟨m2, hp, hH2, _, hl2, _⟩ := push_back_spare { v with size_ := 0 } m1 [] x hH1 hN1
    (by dsimp only; omega)
  refine ⟨_, m2, hp, rfl, rfl, ?_, rfl, by simpa using hH2, ?_⟩
  · simp only [allocations]; omega
  · simpa using stored_contents hH2.1

/-- Witness for C18: `clear()` and `push_back(9)` on the sample vector. -/
theorem C18_clear_then_push_back_witness :
    Holds sample_mem sample_vec [1, 2, 3] ∧ NoFail sample_mem ∧
    ∃ v1 m1, clear ⟨sample_vec, sample_mem⟩ = .ok () ⟨v1, m1⟩ ∧
      size v1 = 0 ∧ capacity v1 = capacity sample_vec ∧ v1.data_ = sample_vec.data_ ∧
      Holds m1 v1 [] ∧ allocations m1 = allocations sample_mem ∧
      (1 ≤ capacity sample_vec → ∃ v2 m2, push_back 9 ⟨v1, m1⟩ = .ok () ⟨v2, m2⟩ ∧
        capacity v2 = capacity sample_vec ∧ v2.data_ = sample_vec.data_ ∧
        allocations m2 = allocations sample_mem ∧
        size v2 = 1 ∧ Holds m2 v2 [9] ∧ contents m2 v2 = [some 9]) :=
  ⟨by simp [Holds, Stored, slots, liveBlock, sample_mem, sample_vec], ⟨rfl, rfl⟩,
    C18_clear_then_push_back sample_vec sample_mem [1, 2, 3] 9
      (by simp [Holds, Stored, slots, liveBlock, sample_mem, sample_vec]) ⟨rfl, rfl⟩⟩

end ClaimsC

section Trace
variable {T : Type}

/-- Appending to a vector that owns its block, whose capacity is `2 ^ e` and
which is at least half full: the capacity stays a power of two, its exponent grows by the number of
calls that change the capacity, and the vector stays at least half full. -/
theorem push_trace_doubling :
    ∀ (xs : List T) (v : Vec) (m : Mem T) (ys : List T) (e : Nat), Owns m v ys → NoFail m →
      1 ≤ e → v.capacity_ = 2 ^ e → 2 ^ (e - 1) ≤ v.size_ →
      ∃ tr v1 m1, push_trace xs ⟨v, m⟩ = .ok tr ⟨v1, m1⟩ ∧
        Owns m1 v1 (ys ++ xs) ∧ NoFail m1 ∧ tr.length = xs.length ∧
        v1.capacity_ = 2 ^ (e + changes v.capacity_ tr) ∧
        2 ^ (e + changes v.capacity_ tr - 1) ≤ v1.size_ := by
  intro xs
  induction xs with
  | nil =>
    intro v m ys e hH hN he hc hhalf
    exact ⟨[], v, m, by simp [push_trace], by simpa using hH, hN, rfl, by simpa [changes] using hc,
      by simpa [changes] using hhalf⟩
  | cons x xs ih =>
    intro v m ys e hH hN he hc hhalf
    have hs : v.size_ = ys.length := hH.1.1.1
    have hpos : 0 < 2 ^ e := Nat.pow_pos (by decide)
    obtain ⟨v1, m1, hp, hH1, hN1, hs1, _, hc1, _⟩ := push_back_ok v m ys x hH
      (fun h => by omega) hN
    by_cases hfull : v.size_ = v.capacity_
    · have hnz : ¬ (v.capacity_ = 0) := by omega
      simp only [hfull, hnz, if_true, if_false] at hc1
      have hc1e : v1.capacity_ = 2 ^ (e + 1) := by rw [hc1, hc, Nat.pow_succ]
      obtain ⟨tr, v2, m2, ht, hH2, hN2, hl2, hc2, hh2⟩ := ih v1 m1 (ys ++ [x]) (e + 1) hH1 hN1
        (by omega) hc1e (by simp; rw [hs1, hfull, hc]; omega)
      have hne : v1.capacity_ ≠ v.capacity_ := by omega
      have hch : changes v.capacity_ (v1.capacity_ :: tr) = 1 + changes v1.capacity_ tr := by
        simp [changes, hne]
      refine ⟨v1.capacity_ :: tr, v2, m2, ?_, by simpa using hH2, hN2, by simp [hl2], ?_, ?_⟩
      · simp only [push_trace, bind_run, hp, getSelf, ht, pure_run, capacity]
      · rw [hch, hc2]; congr 1; omega
      · rw [hch]
        have : e + (1 + changes v1.capacity_ tr) - 1 = e + 1 + changes v1.capacity_ tr - 1 := by
          omega
        rw [this]; exact hh2
    · simp only [hfull, if_false] at hc1
      obtain ⟨tr, v2, m2, ht, hH2, hN2, hl2, hc2, hh2⟩ := ih v1 m1 (ys ++ [x]) e hH1 hN1
        he (by rw [hc1, hc]) (by omega)
      have hch : changes v.capacity_ (v1.capacity_ :: tr) = changes v1.capacity_ tr := by
        simp [changes, hc1]
      refine ⟨v1.capacity_ :: tr, v2, m2, ?_, by simpa using hH2, hN2, by simp [hl2], ?_, ?_⟩
      · simp only [push_trace, bind_run, hp, getSelf, ht, pure_run, capacity]
      · rw [hch, hc2]
      · rw [hch]; exact hh2

end Trace

section ClaimsD
variable {T : Type}

/-- C19 (logarithmic number of reallocations): `N ≥ 1` calls of `push_back` on a
default-constructed vector, nothing failing.  The number of calls after which
`capacity()` differs from before is at most `floor(log2 N) + 1`; at the end
`size() == N`, `capacity() ≥ N` and the vector holds the pushed values in the
order of the calls. -/
theorem C19_push_back_reallocations (xs : List T) (m : Mem T) (hN : NoFail m)
    (hne : 1 ≤ xs.length) :
    ∃ tr v m1, push_trace xs ⟨vector_default, m⟩ = .ok tr ⟨v, m1⟩ ∧
      tr.length = xs.length ∧
      changes (capacity vector_default) tr ≤ Nat.log 2 xs.length + 1 ∧
      size v = xs.length ∧ xs.length ≤ capacity v ∧
      Holds m1 v xs ∧ contents m1 v = xs.map some := by
  cases xs with
  | nil => simp at hne
  | cons x xs =>
    have hH0 : Owns m vector_default ([] : List T) := by
      simp [Owns, Holds, Stored, slots, liveBlock, vector_default, nullptr]
    obtain ⟨v1, m1, hp, hH1, hN1, hs1, _, hc1, _⟩ := push_back_ok vector_default m [] x hH0
      (fun _ => rfl) hN
    have hc1e : v1.capacity_ = 2 ^ 1 := by simpa [vector_default] using hc1
    have hs1e : v1.size_ = 1 := by simpa [vector_default] using hs1
    obtain ⟨tr, v2, m2, ht, hH2, hN2, hl2, hc2, hh2⟩ := push_trace_doubling xs v1 m1 [x] 1 hH1
      hN1 (Nat.le_refl _) hc1e (by rw [hs1e]; simp)
    have hH2x : Holds m2 v2 (x :: xs) := by simpa using hH2.1
    have hsz : v2.size_ = (x :: xs).length := hH2x.1.1
    have hch : changes (capacity vector_default) (v1.capacity_ :: tr) =
        1 + changes v1.capacity_ tr := by
      simp [changes, capacity, vector_default, hc1e]
    refine ⟨v1.capacity_ :: tr, v2, m2, ?_, by simp [hl2], ?_, hsz, ?_, hH2x,
      stored_contents hH2x.1⟩
    · simp only [push_trace, bind_run, hp, getSelf, ht, pure_run, capacity]
    · rw [hch]
      have hpow : 2 ^ (changes v1.capacity_ tr) ≤ (x :: xs).length := by
        have : 1 + changes v1.capacity_ tr - 1 = changes v1.capacity_ tr := by omega
        rw [this, hsz] at hh2
        exact hh2
      have := Nat.le_log_of_pow_le (by decide : 1 < 2) hpow
      omega
    · rw [← hsz]; exact hH2x.2.1

/-- Witness for C19: pushing 1, 2, 3, 4, 5 onto an empty vector on a fresh heap. -/
theorem C19_push_back_reallocations_witness :
    (NoFail (Mem.fresh Nat none none) ∧ 1 ≤ [1, 2, 3, 4, 5].length) ∧
    ∃ tr v m1, push_trace [1, 2, 3, 4, 5] ⟨vector_default, Mem.fresh Nat none none⟩ =
        .ok tr ⟨v, m1⟩ ∧
      tr.length = [1, 2, 3, 4, 5].length ∧
      changes (capacity vector_default) tr ≤ Nat.log 2 [1, 2, 3, 4, 5].length + 1 ∧
      size v = [1, 2, 3, 4, 5].length ∧ [1, 2, 3, 4, 5].length ≤ capacity v ∧
      Holds m1 v [1, 2, 3, 4, 5] ∧ contents m1 v = [1, 2, 3, 4, 5].map some :=
  ⟨⟨⟨rfl, rfl⟩, by decide⟩,
    C19_push_back_reallocations [1, 2, 3, 4, 5] (Mem.fresh Nat none none) ⟨rfl, rfl⟩
      (by decide)⟩

end ClaimsD

section CopyGeneral
variable {T : Type}

/-- The invariant of a vector only depends on the block it points into. -/
theorem holds_of_block_eq {m m1 : Mem T} {v : Vec} {xs : List T} (h : Holds m v xs)
    (he : ∀ k, v.data_.base = some k → m1.blocks[k]? = m.blocks[k]?) : Holds m1 v xs := by
  obtain ⟨⟨base, o⟩, sz, cap, al⟩ := v
  cases base with
  | none => simpa [Holds, Stored, slots, liveBlock] using h
  | some k =>
    have e := he k rfl
    simpa [Holds, Stored, slots, liveBlock, e] using h

end CopyGeneral

section CopyAssign
variable {T : Type}

theorem stored_readable {m : Mem T} {v : Vec} {xs : List T} (h : Stored m v xs) :
    Readable m.blocks v.data_ xs := fun i hi => stored_peek h i hi

end CopyAssign

section ClaimsE
variable {T : Type}

end ClaimsE

section Frame
variable {T σ α β : Type}

theorem preserves_pure {I : σ → Prop} {Q : α → Prop} {a : α} (h : Q a) :
    Preserves I (pure a : M σ α) Q := fun _ hs => ⟨hs, h⟩

theorem preserves_raise {I : σ → Prop} {Q : α → Prop} (e : Exn) :
    Preserves I (raise e : M σ α) Q := fun _ hs => hs

theorem preserves_undefined {I : σ → Prop} {Q : α → Prop} :
    Preserves I (undefined : M σ α) Q := fun _ _ => trivial

theorem preserves_bind {I : σ → Prop} {Q : α → Prop} {R : β → Prop} {x : M σ α}
    {f : α → M σ β} (hx : Preserves I x Q) (hf : ∀ a, Q a → Preserves I (f a) R) :
    Preserves I (x >>= f) R := by
  intro s hs
  have h := hx s hs
  simp only [bind_run]
  cases hxs : x s with
  | ok a s1 =>
    rw [hxs] at h
    exact hf a h.2 s1 h.1
  | throw e s1 =>
    rw [hxs] at h
    exact h
  | ub => trivial

theorem preserves_weaken {I : σ → Prop} {Q R : α → Prop} {x : M σ α}
    (hx : Preserves I x Q) (hq : ∀ a, Q a → R a) : Preserves I x R := by
  intro s hs
  have h := hx s hs
  cases hxs : x s with
  | ok a s1 => rw [hxs] at h; exact ⟨h.1, hq a h.2⟩
  | throw e s1 => rw [hxs] at h; exact h
  | ub => trivial

theorem preserves_ite {I : σ → Prop} {Q : α → Prop} {c : Prop} [Decidable c] {x y : M σ α}
    (hx : Preserves I x Q) (hy : Preserves I y Q) : Preserves I (if c then x else y) Q := by
  by_cases h : c
  · simpa [h] using hx
  · simpa [h] using hy

theorem preserves_unwinding {I : σ → Prop} {Q : α → Prop} {dtor : M σ Unit} {body : M σ α}
    (hd : Preserves I dtor (fun _ => True)) (hb : Preserves I body Q) :
    Preserves I (unwinding dtor body) Q := by
  intro s hs
  have h := hb s hs
  simp only [unwinding]
  cases hbs : body s with
  | ok a s1 =>
    rw [hbs] at h
    have h2 := hd s1 h.1
    dsimp only
    cases hds : dtor s1 with
    | ok u s2 => rw [hds] at h2; exact ⟨h2.1, h.2⟩
    | throw e s2 => rw [hds] at h2; exact h2
    | ub => trivial
  | throw e s1 =>
    rw [hbs] at h
    have h2 := hd s1 h
    dsimp only
    cases hds : dtor s1 with
    | ok u s2 => rw [hds] at h2; exact h2.1
    | throw e s2 => trivial
    | ub => trivial
  | ub => trivial

theorem preserves_getS {I : σ → Prop} : Preserves I (getS : M σ σ) I :=
  fun _ hs => ⟨hs, hs⟩

theorem preserves_sub {I : σ → Prop} (p : Ptr) (k : Nat) :
    Preserves I (Ptr.sub p k : M σ Ptr) (fun q => q.base = p.base) := by
  unfold Ptr.sub
  exact preserves_ite (preserves_pure rfl) preserves_undefined

theorem preserves_ge {I : σ → Prop} (p q : Ptr) :
    Preserves I (Ptr.ge p q : M σ Bool) (fun _ => True) := by
  unfold Ptr.ge
  exact preserves_ite (preserves_pure trivial) preserves_undefined

theorem preserves_gt {I : σ → Prop} (p q : Ptr) :
    Preserves I (Ptr.gt p q : M σ Bool) (fun _ => True) := by
  unfold Ptr.gt
  exact preserves_ite (preserves_pure trivial) preserves_undefined

/-! ### Heap primitives leave other blocks alone -/

theorem liveBlock_base {bs : List (Block T)} {p : Ptr} {k : Nat} {blk : Block T}
    (h : liveBlock bs p = some (k, blk)) : p.base = some k := by
  obtain ⟨base, o⟩ := p
  cases base with
  | none => simp [liveBlock] at h
  | some j =>
    simp only [liveBlock] at h
    cases hb : bs[j]? with
    | none => simp [hb] at h
    | some blk1 =>
      simp only [hb] at h
      cases hf : blk1.freed with
      | none => simp [hf] at h; rw [h.1]
      | some n => simp [hf] at h

theorem frame_set {bs : List (Block T)} {b k : Nat} {tgt blk : Block T}
    (h : bs[b]? = some tgt) (hne : k ≠ b) : (bs.set k blk)[b]? = some tgt := by
  rw [List.getElem?_set_ne hne]; exact h

theorem frame_allocate (b : Nat) (tgt : Block T) (n : Nat) :
    Preserves (BlockIs b tgt) (allocate n) (fun p => p.base ≠ some b) := by
  intro m hm
  unfold BlockIs at hm
  have hlt := lookup_lt hm
  simp only [allocate]
  cases hs : spend m.allocBudget with
  | none => exact hm
  | some ab1 =>
    refine ⟨?_, ?_⟩
    · show (m.blocks ++ _)[b]? = some tgt
      rw [List.getElem?_append_left hlt]; exact hm
    · intro h
      injection h with h
      omega

theorem frame_construct (b : Nat) (tgt : Block T) (p : Ptr) (x : T) (hp : p.base ≠ some b) :
    Preserves (BlockIs b tgt) (construct p x) (fun _ => True) := by
  intro m hm
  unfold BlockIs at hm
  simp only [construct]
  cases hl : liveBlock m.blocks p with
  | none => trivial
  | some r =>
    obtain ⟨k, blk⟩ := r
    have hk : k ≠ b := fun h => hp (by rw [liveBlock_base hl, h])
    dsimp only
    by_cases ho : p.off < blk.cells.length
    · simp only [ho, if_true]
      cases hs : spend m.ctorBudget with
      | none => exact hm
      | some cb1 => exact ⟨frame_set hm hk, trivial⟩
    · simp only [ho, if_false]

theorem frame_destroy (b : Nat) (tgt : Block T) (p : Ptr) (hp : p.base ≠ some b) :
    Preserves (BlockIs b tgt) (destroy (T := T) p) (fun _ => True) := by
  intro m hm
  unfold BlockIs at hm
  simp only [destroy]
  cases hl : liveBlock m.blocks p with
  | none => trivial
  | some r =>
    obtain ⟨k, blk⟩ := r
    have hk : k ≠ b := fun h => hp (by rw [liveBlock_base hl, h])
    dsimp only
    cases hc : blk.cells[p.off]? with
    | none => trivial
    | some cell =>
      cases cell with
      | none => trivial
      | some y => exact ⟨frame_set hm hk, trivial⟩

theorem frame_deallocate (b : Nat) (tgt : Block T) (p : Ptr) (n : Nat) (hp : p.base ≠ some b) :
    Preserves (BlockIs b tgt) (deallocate (T := T) p n) (fun _ => True) := by
  intro m hm
  unfold BlockIs at hm
  simp only [deallocate]
  cases hl : liveBlock m.blocks p with
  | none => trivial
  | some r =>
    obtain ⟨k, blk⟩ := r
    have hk : k ≠ b := fun h => hp (by rw [liveBlock_base hl, h])
    dsimp only
    by_cases ho : p.off = 0 ∧ n = blk.cells.length
    · rw [if_pos ho]
      exact ⟨frame_set hm hk, trivial⟩
    · rw [if_neg ho]
      trivial

theorem frame_read (b : Nat) (tgt : Block T) (p : Ptr) :
    Preserves (BlockIs b tgt) (read (T := T) p) (fun _ => True) := by
  intro m hm
  simp only [read]
  cases hl : liveBlock m.blocks p with
  | none => trivial
  | some r =>
    obtain ⟨k, blk⟩ := r
    dsimp only
    cases hc : blk.cells[p.off]? with
    | none => trivial
    | some cell =>
      cases cell with
      | none => trivial
      | some y => exact ⟨hm, trivial⟩

end Frame

section FrameLoops
variable {T : Type}

theorem frame_fill_try (b : Nat) (tgt : Block T) (newarr : Ptr) (value : T)
    (hp : newarr.base ≠ some b) :
    ∀ n p, Preserves (BlockIs b tgt) (fill_try newarr value n p) (fun _ => True) := by
  intro n
  induction n with
  | zero => intro p; exact preserves_pure trivial
  | succ n ih =>
    intro p m hm
    have h := frame_construct b tgt (newarr.add p) value hp m hm
    simp only [fill_try]
    cases hc : construct (newarr.add p) value m with
    | ok u m1 => rw [hc] at h; exact ih (p + 1) m1 h.1
    | throw e m1 => rw [hc] at h; exact ⟨h, trivial⟩
    | ub => trivial

theorem frame_init_try (b : Nat) (tgt : Block T) (data : Ptr) (hp : data.base ≠ some b) :
    ∀ (items : List T) (p : Nat),
      Preserves (BlockIs b tgt) (init_try data items p) (fun _ => True) := by
  intro items
  induction items with
  | nil => intro p; exact preserves_pure trivial
  | cons x xs ih =>
    intro p m hm
    have h := frame_construct b tgt (data.add p) x hp m hm
    simp only [init_try]
    cases hc : construct (data.add p) x m with
    | ok u m1 => rw [hc] at h; exact ih (p + 1) m1 h.1
    | throw e m1 => rw [hc] at h; exact ⟨h, trivial⟩
    | ub => trivial

theorem frame_copy_try (b : Nat) (tgt : Block T) (newarr arr : Ptr)
    (hp : newarr.base ≠ some b) :
    ∀ n p, Preserves (BlockIs b tgt) (copy_try newarr arr n p) (fun _ => True) := by
  intro n
  induction n with
  | zero => intro p; exact preserves_pure trivial
  | succ n ih =>
    intro p m hm
    have h : Preserves (BlockIs b tgt)
        (read (arr.add p) >>= fun x => construct (newarr.add p) x) (fun _ => True) :=
      preserves_bind (frame_read b tgt _) (fun x _ => frame_construct b tgt _ x hp)
    have h := h m hm
    simp only [copy_try]
    cases hc : (read (arr.add p) >>= fun x => construct (newarr.add p) x) m with
    | ok u m1 => rw [hc] at h; exact ih (p + 1) m1 h.1
    | throw e m1 => rw [hc] at h; exact ⟨h, trivial⟩
    | ub => trivial

theorem frame_destroy_loop (b : Nat) (tgt : Block T) (arr : Ptr) (hp : arr.base ≠ some b) :
    ∀ n i, Preserves (BlockIs b tgt) (destroy_loop (T := T) arr n i) (fun _ => True) := by
  intro n
  induction n with
  | zero => intro i; exact preserves_pure trivial
  | succ n ih =>
    intro i
    simp only [destroy_loop]
    exact preserves_bind (frame_destroy b tgt _ hp) (fun _ _ => ih (i + 1))

theorem frame_insert_loop (b : Nat) (tgt : Block T) (data buffer pos : Ptr) (value : T)
    (hp : buffer.base ≠ some b) :
    ∀ n j i position,
      Preserves (BlockIs b tgt) (insert_loop data buffer pos value n j i position)
        (fun _ => True) := by
  intro n
  induction n with
  | zero => intro j i position; exact preserves_pure trivial
  | succ n ih =>
    intro j i position
    simp only [insert_loop]
    refine preserves_ite ?_ ?_
    · refine preserves_bind (frame_construct b tgt _ value hp) (fun _ _ => ?_)
      refine preserves_bind (frame_read b tgt _) (fun x _ => ?_)
      exact preserves_bind (frame_construct b tgt _ x hp) (fun _ _ => ih _ _ _)
    · refine preserves_bind (frame_read b tgt _) (fun x _ => ?_)
      exact preserves_bind (frame_construct b tgt _ x hp) (fun _ _ => ih _ _ _)

theorem frame_erase_loop (b : Nat) (tgt : Block T) (data buffer pos : Ptr)
    (hp : buffer.base ≠ some b) :
    ∀ n j i,
      Preserves (BlockIs b tgt) (erase_loop (T := T) data buffer pos n j i) (fun _ => True) := by
  intro n
  induction n with
  | zero => intro j i; exact preserves_pure trivial
  | succ n ih =>
    intro j i
    simp only [erase_loop]
    refine preserves_ite ?_ (ih _ _)
    refine preserves_bind (frame_read b tgt _) (fun x _ => ?_)
    exact preserves_bind (frame_construct b tgt _ x hp) (fun _ _ => ih _ _)

theorem frame_handler (b : Nat) (tgt : Block T) (newarr : Ptr) (capacity : Nat)
    (r : Nat × Option Exn) (hp : newarr.base ≠ some b) :
    Preserves (BlockIs b tgt)
      (match r.2 with
        | none => (pure newarr : M (Mem T) Ptr)
        | some e => do
          destroy_loop newarr r.1 0
          deallocate newarr capacity
          raise e)
      (fun p => p.base ≠ some b) := by
  cases r.2 with
  | none => exact preserves_pure hp
  | some e =>
    refine preserves_bind (frame_destroy_loop b tgt newarr hp _ _) (fun _ _ => ?_)
    exact preserves_bind (frame_deallocate b tgt newarr capacity hp)
      (fun _ _ => preserves_raise e)

theorem frame_allocate_memory (b : Nat) (tgt : Block T) (size capacity : Nat) (value : T) :
    Preserves (BlockIs b tgt) (allocate_memory size capacity value)
      (fun p => p.base ≠ some b) := by
  unfold allocate_memory
  refine preserves_bind (frame_allocate b tgt capacity) (fun newarr hp => ?_)
  refine preserves_bind (frame_fill_try b tgt newarr value hp size 0) (fun r _ => ?_)
  exact frame_handler b tgt newarr capacity r hp

theorem frame_allocate_memory_arr (b : Nat) (tgt : Block T) (size capacity : Nat) (arr : Ptr) :
    Preserves (BlockIs b tgt) (allocate_memory_arr (T := T) size capacity arr)
      (fun p => p.base ≠ some b) := by
  unfold allocate_memory_arr
  refine preserves_bind (frame_allocate b tgt capacity) (fun newarr hp => ?_)
  refine preserves_bind (frame_copy_try b tgt newarr arr hp size 0) (fun r _ => ?_)
  exact frame_handler b tgt newarr capacity r hp

theorem frame_deallocate_memory (b : Nat) (tgt : Block T) (size capacity : Nat) (arr : Ptr)
    (hp : arr.base ≠ some b) :
    Preserves (BlockIs b tgt) (deallocate_memory (T := T) size capacity arr)
      (fun _ => True) := by
  unfold deallocate_memory
  refine preserves_ite ?_ (preserves_pure trivial)
  exact preserves_bind (frame_destroy_loop b tgt arr hp _ _)
    (fun _ _ => frame_deallocate b tgt arr capacity hp)

theorem frame_vector_copy (b : Nat) (tgt : Block T) (other : Vec) :
    Preserves (BlockIs b tgt) (vector_copy (T := T) other)
      (fun v => v.data_.base ≠ some b) := by
  unfold vector_copy
  exact preserves_bind (frame_allocate_memory_arr b tgt _ _ _)
    (fun data hd => preserves_pure hd)

end FrameLoops

section FrameMembers
variable {T : Type}

theorem apart_onMem {α : Type} {Q : α → Prop} (b : Nat) (tgt : Block T) {x : M (Mem T) α}
    (h : Preserves (BlockIs b tgt) x Q) : Preserves (Apart b tgt) (onMem x) Q := by
  intro s hs
  have hx := h s.mem hs.1
  simp only [onMem]
  cases hxs : x s.mem with
  | ok a m1 => rw [hxs] at hx; exact ⟨⟨hx.1, hs.2⟩, hx.2⟩
  | throw e m1 => rw [hxs] at hx; exact ⟨hx, hs.2⟩
  | ub => trivial

theorem apart_getSelf (b : Nat) (tgt : Block T) :
    Preserves (Apart b tgt) getSelf (fun v => v.data_.base ≠ some b) :=
  fun _ hs => ⟨hs, hs.2⟩

theorem apart_setData (b : Nat) (tgt : Block T) (p : Ptr) (hp : p.base ≠ some b) :
    Preserves (Apart b tgt) (setData p) (fun _ => True) :=
  fun _ hs => ⟨⟨hs.1, hp⟩, trivial⟩

theorem apart_setSize (b : Nat) (tgt : Block T) (n : Nat) :
    Preserves (Apart b tgt) (setSize n) (fun _ => True) :=
  fun _ hs => ⟨⟨hs.1, hs.2⟩, trivial⟩

theorem apart_setCapacity (b : Nat) (tgt : Block T) (n : Nat) :
    Preserves (Apart b tgt) (setCapacity n) (fun _ => True) :=
  fun _ hs => ⟨⟨hs.1, hs.2⟩, trivial⟩

theorem apart_reserve (b : Nat) (tgt : Block T) (n : Nat) :
    Preserves (Apart b tgt) (reserve n) (fun _ => True) := by
  unfold reserve
  refine preserves_bind (apart_getSelf b tgt) (fun v hv => ?_)
  refine preserves_ite (preserves_pure trivial) ?_
  refine preserves_bind (apart_onMem b tgt (frame_vector_copy b tgt v)) (fun tmp ht => ?_)
  refine preserves_unwinding ?_ ?_
  · exact apart_onMem b tgt (frame_deallocate_memory b tgt _ _ _ ht)
  · refine preserves_bind (apart_onMem b tgt (frame_deallocate_memory b tgt _ _ _ hv))
      (fun _ _ => ?_)
    refine preserves_bind (apart_onMem b tgt (frame_allocate_memory_arr b tgt _ _ _))
      (fun data hd => ?_)
    exact preserves_bind (apart_setData b tgt data hd) (fun _ _ => apart_setCapacity b tgt n)

theorem apart_push_back (b : Nat) (tgt : Block T) (x : T) :
    Preserves (Apart b tgt) (push_back x) (fun _ => True) := by
  unfold push_back
  refine preserves_bind (apart_getSelf b tgt) (fun v hv => ?_)
  refine preserves_bind (Q := fun _ => True) ?_ (fun _ _ => ?_)
  · refine preserves_ite ?_ (preserves_pure trivial)
    refine preserves_bind (Q := fun _ => True) ?_ (fun _ _ => ?_)
    · exact preserves_ite (apart_setCapacity b tgt 1) (preserves_pure trivial)
    · exact preserves_bind (apart_getSelf b tgt) (fun v1 _ => apart_reserve b tgt _)
  · refine preserves_bind (apart_getSelf b tgt) (fun v2 hv2 => ?_)
    refine preserves_bind (apart_onMem b tgt (frame_construct b tgt _ x hv2)) (fun _ _ => ?_)
    exact apart_setSize b tgt _

theorem apart_insert (b : Nat) (tgt : Block T) (pos : Ptr) (x : T) :
    Preserves (Apart b tgt) (insert pos x) (fun _ => True) := by
  unfold insert
  refine preserves_bind (apart_getSelf b tgt) (fun v hv => ?_)
  refine preserves_ite ?_ ?_
  · exact preserves_bind (apart_push_back b tgt x) (fun _ _ => preserves_pure trivial)
  · refine preserves_bind (preserves_gt _ _) (fun past _ => ?_)
    refine preserves_ite (preserves_pure trivial) ?_
    refine preserves_bind (apart_onMem b tgt (frame_read b tgt _)) (fun front _ => ?_)
    refine preserves_bind (apart_onMem b tgt (frame_allocate_memory b tgt _ _ front))
      (fun buffer hb => ?_)
    refine preserves_bind
      (apart_onMem b tgt (frame_insert_loop b tgt v.data_ buffer _ x hb _ _ _ _))
      (fun position _ => ?_)
    refine preserves_bind (apart_onMem b tgt (frame_deallocate_memory b tgt _ _ _ hv))
      (fun _ _ => ?_)
    refine preserves_bind (apart_setData b tgt buffer hb) (fun _ _ => ?_)
    refine preserves_bind (apart_setSize b tgt _) (fun _ _ => ?_)
    refine preserves_bind (apart_getSelf b tgt) (fun v1 _ => ?_)
    refine preserves_bind (Q := fun _ => True) ?_ (fun _ _ => preserves_pure trivial)
    exact preserves_ite (apart_reserve b tgt _) (preserves_pure trivial)

theorem apart_erase (b : Nat) (tgt : Block T) (pos : Ptr) :
    Preserves (Apart b tgt) (erase (T := T) pos) (fun _ => True) := by
  unfold erase
  refine preserves_bind (apart_getSelf b tgt) (fun v hv => ?_)
  refine preserves_bind (preserves_ge _ _) (fun out _ => ?_)
  refine preserves_ite (preserves_raise _) ?_
  refine preserves_bind (apart_onMem b tgt (frame_read b tgt _)) (fun front _ => ?_)
  refine preserves_bind (apart_onMem b tgt (frame_allocate_memory b tgt _ _ front))
    (fun buffer hb => ?_)
  refine preserves_bind
    (apart_onMem b tgt (frame_erase_loop b tgt v.data_ buffer _ hb _ _ _)) (fun _ _ => ?_)
  refine preserves_bind (apart_onMem b tgt (frame_deallocate_memory b tgt _ _ _ hv))
    (fun _ _ => ?_)
  exact preserves_bind (apart_setData b tgt buffer hb) (fun _ _ => apart_setSize b tgt _)

theorem apart_pop_back (b : Nat) (tgt : Block T) :
    Preserves (Apart b tgt) (pop_back (T := T)) (fun _ => True) := by
  unfold pop_back
  refine preserves_bind (apart_getSelf b tgt) (fun v hv => ?_)
  refine preserves_bind (preserves_sub (end_ v) 1) (fun p hp => ?_)
  have hpb : p.base ≠ some b := by rw [hp]; exact hv
  refine preserves_bind (apart_onMem b tgt (frame_destroy b tgt p hpb)) (fun _ _ => ?_)
  exact apart_setSize b tgt _

theorem apart_clear (b : Nat) (tgt : Block T) :
    Preserves (Apart b tgt) (clear (T := T)) (fun _ => True) := by
  unfold clear
  refine preserves_bind (apart_getSelf b tgt) (fun v hv => ?_)
  refine preserves_ite ?_ (preserves_pure trivial)
  exact preserves_bind (apart_onMem b tgt (frame_destroy_loop b tgt v.data_ hv _ _))
    (fun _ _ => apart_setSize b tgt 0)

theorem apart_shrink_to_fit (b : Nat) (tgt : Block T) :
    Preserves (Apart b tgt) (shrink_to_fit (T := T)) (fun _ => True) := by
  unfold shrink_to_fit
  refine preserves_bind (apart_getSelf b tgt) (fun v hv => ?_)
  refine preserves_ite (preserves_pure trivial) ?_
  refine preserves_bind (apart_onMem b tgt (frame_deallocate_memory b tgt _ _ _ hv))
    (fun _ _ => ?_)
  refine preserves_bind (apart_onMem b tgt (frame_allocate_memory_arr b tgt _ _ _))
    (fun data hd => ?_)
  exact preserves_bind (apart_setData b tgt data hd) (fun _ _ => apart_setCapacity b tgt _)

theorem apart_pop_while (b : Nat) (tgt : Block T) (count : Nat) :
    ∀ fuel, Preserves (Apart b tgt) (pop_while (T := T) count fuel) (fun _ => True) := by
  intro fuel
  induction fuel with
  | zero =>
    simp only [pop_while]
    exact preserves_bind (apart_getSelf b tgt)
      (fun _ _ => preserves_ite preserves_undefined (preserves_pure trivial))
  | succ fuel ih =>
    simp only [pop_while]
    refine preserves_bind (apart_getSelf b tgt) (fun _ _ => ?_)
    refine preserves_ite ?_ (preserves_pure trivial)
    exact preserves_bind (apart_pop_back b tgt) (fun _ _ => ih)

theorem apart_grow_while (b : Nat) (tgt : Block T) (count : Nat) (value : T) :
    ∀ fuel, Preserves (Apart b tgt) (grow_while count value fuel) (fun _ => True) := by
  intro fuel
  induction fuel with
  | zero =>
    simp only [grow_while]
    exact preserves_bind (apart_getSelf b tgt)
      (fun _ _ => preserves_ite preserves_undefined (preserves_pure trivial))
  | succ fuel ih =>
    simp only [grow_while]
    refine preserves_bind (apart_getSelf b tgt) (fun v hv => ?_)
    refine preserves_ite ?_ (preserves_pure trivial)
    refine preserves_bind (apart_onMem b tgt (frame_construct b tgt _ value hv)) (fun _ _ => ?_)
    exact preserves_bind (apart_setSize b tgt _) (fun _ _ => ih)

theorem apart_resize (b : Nat) (tgt : Block T) (n : Nat) (x : T) :
    Preserves (Apart b tgt) (resize n x) (fun _ => True) := by
  unfold resize
  refine preserves_bind (apart_getSelf b tgt) (fun v _ => ?_)
  refine preserves_bind (Q := fun _ => True) ?_ (fun _ _ => ?_)
  · exact preserves_ite (apart_reserve b tgt n) (preserves_pure trivial)
  · refine preserves_bind (apart_getSelf b tgt) (fun v1 _ => ?_)
    refine preserves_bind (Q := fun _ => True) ?_ (fun _ _ => ?_)
    · exact preserves_ite (apart_pop_while b tgt n _) (preserves_pure trivial)
    · exact preserves_bind (apart_getSelf b tgt) (fun v2 _ => apart_grow_while b tgt n x _)

theorem apart_op (b : Nat) (tgt : Block T) (o : Op T) :
    Preserves (Apart b tgt) o.run (fun _ => True) := by
  cases o with
  | push_back x => exact apart_push_back b tgt x
  | pop_back => exact apart_pop_back b tgt
  | insert k x =>
    exact preserves_bind (apart_getSelf b tgt) (fun v _ =>
      preserves_bind (apart_insert b tgt _ x) (fun _ _ => preserves_pure trivial))
  | erase k =>
    exact preserves_bind (apart_getSelf b tgt) (fun v _ => apart_erase b tgt _)
  | clear => exact apart_clear b tgt
  | reserve n => exact apart_reserve b tgt n
  | shrink_to_fit => exact apart_shrink_to_fit b tgt
  | resize n x => exact apart_resize b tgt n x

theorem apart_run_ops (b : Nat) (tgt : Block T) :
    ∀ ops : List (Op T), Preserves (Apart b tgt) (run_ops ops) (fun _ => True) := by
  intro ops
  induction ops with
  | nil => exact preserves_pure trivial
  | cons o os ih =>
    simp only [run_ops]
    exact preserves_bind (apart_op b tgt o) (fun _ _ => ih)

theorem holds_has_block {m : Mem T} {v : Vec} {xs : List T} {k : Nat} (h : Holds m v xs)
    (hk : v.data_.base = some k) : ∃ tgt, m.blocks[k]? = some tgt := by
  obtain ⟨⟨base, o⟩, sz, cap, al⟩ := v
  obtain ⟨bs, ab, cb, c, d⟩ := m
  dsimp only at hk; subst hk
  obtain ⟨_, _, _, rest, hb, _⟩ := holds_block h
  exact ⟨_, hb⟩

/-- Isolation: operations on one vector that end normally or with an exception
leave every vector that lives in another block as it was. -/
theorem isolation (ops : List (Op T)) (s s1 : St T) (other : Vec) (ys : List T)
    (hO : Holds s.mem other ys)
    (hD : ∀ k, other.data_.base = some k → s.self.data_.base ≠ some k)
    (hE : EndsIn (run_ops ops s) s1) :
    Holds s1.mem other ys ∧ contents s1.mem other = contents s.mem other := by
  have key : ∀ k, other.data_.base = some k → s1.mem.blocks[k]? = s.mem.blocks[k]? := by
    intro k hk
    obtain ⟨tgt, htgt⟩ := holds_has_block hO hk
    have h := apart_run_ops k tgt ops s ⟨htgt, hD k hk⟩
    rcases hE with ⟨a, ha⟩ | ⟨e, he⟩
    · rw [ha] at h; rw [h.1.1, htgt]
    · rw [he] at h; rw [h.1, htgt]
  have hH1 := holds_of_block_eq hO key
  exact ⟨hH1, by rw [stored_contents hH1.1, stored_contents hO.1]⟩

end FrameMembers

section ClaimsF
variable {T : Type}

/-- Copy construction from a vector `src` holding `xs` (nothing failing): the
copy constructor yields a vector that holds `xs` in a new block of exactly
`src.capacity()` slots, with `src`'s size and capacity, and `src` still holds
`xs`.  Whatever sequence of operations is then applied to the copy and ends
normally or with an exception, `src` still holds `xs`, and the same with the
roles exchanged.  Sequences that are undefined are not covered. -/
theorem vector_copy_ok (src : Vec) (m : Mem T) (xs : List T)
    (hH : Holds m src xs) (hN : NoFail m) :
    ∃ cp m1, vector_copy src m = .ok cp m1 ∧
      Owns m1 cp xs ∧ contents m1 cp = contents m src ∧
      size cp = size src ∧ capacity cp = capacity src ∧
      Holds m1 src xs ∧ contents m1 src = contents m src ∧
      (∀ ops s2, EndsIn (run_ops ops ⟨cp, m1⟩) s2 →
        Holds s2.mem src xs ∧ contents s2.mem src = contents m src) ∧
      (∀ ops s2, EndsIn (run_ops ops ⟨src, m1⟩) s2 →
        Holds s2.mem cp xs ∧ contents s2.mem cp = contents m src) := by
  obtain ⟨bs, ab, cb, c, d⟩ := m
  obtain ⟨hab, hcb⟩ := hN
  dsimp only at hab hcb
  subst hab hcb
  have hs : src.size_ = xs.length := hH.1.1
  have hc : xs.length ≤ src.capacity_ := by rw [← hs]; exact hH.2.1
  have hal := allocate_memory_arr_ok bs src.data_ xs src.capacity_ c d
    (stored_readable hH.1) hc
  rw [← hs] at hal
  have hlt : ∀ k, src.data_.base = some k → k < bs.length := by
    intro k hk
    obtain ⟨tgt, htgt⟩ := holds_has_block hH hk
    exact lookup_lt htgt
  have hco : Owns (⟨bs ++ [⟨xs.map some ++ List.replicate (src.capacity_ - src.size_) none,
      none⟩], none, none, c + src.size_, d⟩ : Mem T)
      ⟨⟨some bs.length, 0⟩, xs.length, src.capacity_, default⟩ xs :=
    owns_intro _ _ _ _ _ _ _ _ _ _ (get_last _ _) (by simp; omega)
  rw [← hs] at hco
  have hcp := hco.1
  have hsrc : Holds (⟨bs ++ [⟨xs.map some ++ List.replicate (src.capacity_ - src.size_) none,
      none⟩], none, none, c + src.size_, d⟩ : Mem T) src xs :=
    holds_of_block_eq hH (fun k hk => get1lt _ _ (hlt k hk))
  have hc1 : contents (⟨bs ++ [⟨xs.map some ++
      List.replicate (src.capacity_ - src.size_) none, none⟩], none, none, c + src.size_,
      d⟩ : Mem T) src = contents ⟨bs, none, none, c, d⟩ src := by
    rw [stored_contents hsrc.1, stored_contents hH.1]
  have hN1 : NoFail (⟨bs ++ [⟨xs.map some ++
      List.replicate (src.capacity_ - src.size_) none, none⟩], none, none, c + src.size_,
      d⟩ : Mem T) := ⟨rfl, rfl⟩
  refine ⟨_, _, by simp only [vector_copy, bind_run, hal, pure_run], hco,
    by rw [stored_contents hcp.1, stored_contents hH.1], rfl, rfl, hsrc, hc1, ?_, ?_⟩
  · intro ops s2 hE
    have h := isolation ops _ s2 src xs hsrc
      (fun k hk => by
        intro h
        injection h with h
        have := hlt k hk
        omega) hE
    exact ⟨h.1, by rw [h.2, hc1]⟩
  · intro ops s2 hE
    have h := isolation ops _ s2 _ xs hcp
      (fun k hk => by
        dsimp only at hk
        injection hk with hk
        intro h
        have := hlt k h
        omega) hE
    refine ⟨h.1, ?_⟩
    rw [h.2, stored_contents hcp.1, stored_contents hH.1]

/-- C11 (a copy is independent of its source): evaluated on
`vector<T> src(3, 7); vector<T> cp(src); cp.insert(cp.begin(), 9); cp.push_back(5);`.
The copy holds 7, 7, 7 in a block of its own with `src`'s size and capacity,
and `src` still holds 7, 7, 7.  `insert` on the copy moves it to a block of 4
slots and leaves it with `size() == 4` and `capacity() == 3`; the `push_back`
that follows finds `size_ != capacity_`, does not grow, and constructs at
`data_ + 4`, one past the end of that block.  This mutation of the copy writes
outside the storage of the copy: it is undefined, and nothing is guaranteed
about `src` after it. -/
theorem C11_mutating_the_copy_writes_past_its_block :
    ∃ src m cp m1 cp1 m2,
      vector_fill 3 (7 : Nat) default (Mem.fresh Nat none none) = .ok src m ∧
      vector_copy src m = .ok cp m1 ∧
      Owns m1 cp [7, 7, 7] ∧ Owns m1 src [7, 7, 7] ∧ cp.data_ ≠ src.data_ ∧
      size cp = size src ∧ capacity cp = capacity src ∧
      run_ops [Op.insert 0 9] ⟨cp, m1⟩ = .ok () ⟨cp1, m2⟩ ∧
      contents m2 cp1 = [some 9, some 7, some 7, some 7] ∧
      size cp1 = 4 ∧ capacity cp1 = 3 ∧ slots m2.blocks cp1.data_ = 4 ∧
      end_ cp1 = cp1.data_.add 4 ∧
      construct (end_ cp1) 5 m2 = .ub ∧
      run_ops [Op.insert 0 9, Op.push_back 5] ⟨cp, m1⟩ = .ub := by
  refine ⟨⟨⟨some 0, 0⟩, 3, 3, ⟨0⟩⟩, ⟨[⟨[some 7, some 7, some 7], none⟩], none, none, 3, 0⟩,
    ⟨⟨some 1, 0⟩, 3, 3, ⟨0⟩⟩,
    ⟨[⟨[some 7, some 7, some 7], none⟩, ⟨[some 7, some 7, some 7], none⟩], none, none, 6, 0⟩,
    ⟨⟨some 2, 0⟩, 4, 3, ⟨0⟩⟩,
    ⟨[⟨[some 7, some 7, some 7], none⟩, ⟨[none, none, none], some 3⟩,
      ⟨[some 9, some 7, some 7, some 7], none⟩], none, none, 13, 3⟩,
    by decide!, by decide!, ?_, ?_, by decide!, by decide!, by decide!, by decide!, by decide!,
    by decide!, by decide!, by decide!, by decide!, by decide!, by decide!⟩
  · simp [Owns, Holds, Stored, slots, liveBlock]
  · simp [Owns, Holds, Stored, slots, liveBlock]

end ClaimsF

section Establish
variable {T : Type}

/-- A default-constructed vector owns its (absent) storage. -/
theorem vector_default_owns (m : Mem T) : Owns m vector_default ([] : List T) := by
  simp [Owns, Holds, Stored, slots, liveBlock, vector_default, nullptr]

/-- The constructor `vector(n, value)`, nothing failing: the vector owns a
block of `n` slots that holds `n` copies of the value. -/
theorem vector_fill_owns (n : Nat) (value : T) (a : Allocator) (m : Mem T) (hN : NoFail m) :
    ∃ v m1, vector_fill n value a m = .ok v m1 ∧ Owns m1 v (List.replicate n value) ∧
      size v = n ∧ capacity v = n := by
  obtain ⟨bs, ab, cb, c, d⟩ := m
  obtain ⟨hab, hcb⟩ := hN
  dsimp only at hab hcb
  subst hab hcb
  have h1 := allocate_memory_ok bs value n n c d (Nat.le_refl _)
  have hO := owns_intro
    (bs ++ [⟨List.replicate n (some value) ++ List.replicate (n - n) none, none⟩])
    none none (c + n) d bs.length n a (List.replicate n value) (List.replicate (n - n) none)
    (by simp) (by simp)
  simp only [List.length_replicate] at hO
  exact ⟨_, _, by simp only [vector_fill, bind_run, h1, pure_run], hO, rfl, rfl⟩

/-- The initializer-list constructor, nothing failing: the vector owns a block
of as many slots as there are items. -/
theorem vector_init_owns (items : List T) (a : Allocator) (m : Mem T) (hN : NoFail m) :
    ∃ v m1, vector_init items a m = .ok v m1 ∧ Owns m1 v items := by
  obtain ⟨bs, ab, cb, c, d⟩ := m
  obtain ⟨hab, hcb⟩ := hN
  dsimp only at hab hcb
  subst hab hcb
  have hO := owns_intro (bs ++ [⟨items.map some, none⟩]) none none
    (c + items.length + items.length) d bs.length items.length a items [] (by simp) (by simp)
  exact ⟨_, _, vector_init_ok items a bs c d, hO⟩

/-- The member `clear()` keeps a vector the owner of its block. -/
theorem clear_owns (v : Vec) (m : Mem T) (xs : List T) (hO : Owns m v xs) :
    ∃ m1, clear ⟨v, m⟩ = .ok () ⟨{ v with size_ := 0 }, m1⟩ ∧
      Owns m1 { v with size_ := 0 } [] := by
  obtain ⟨m1, hc, hH1, _, _, _, hsl⟩ := clear_ok v m xs hO.1
  refine ⟨m1, hc, hH1, ?_⟩
  show v.capacity_ = slots m1.blocks v.data_
  rw [hsl]
  exact hO.2

/-- The member `pop_back()` keeps a non-empty vector the owner of its block. -/
theorem pop_back_owns (v : Vec) (m : Mem T) (xs : List T) (x : T) (hO : Owns m v (xs ++ [x])) :
    ∃ m1, pop_back ⟨v, m⟩ = .ok () ⟨{ v with size_ := v.size_ - 1 }, m1⟩ ∧
      Owns m1 { v with size_ := v.size_ - 1 } xs := by
  obtain ⟨m1, hp, hH1, _, _, _, hsl⟩ := pop_back_ok v m xs x hO.1
  refine ⟨m1, hp, hH1, ?_⟩
  show v.capacity_ = slots m1.blocks v.data_
  rw [hsl]
  exact hO.2

end Establish

end ng
